import Mathlib

/-!
Shallow embedding of the BodyLine articulated-figure simulator.

The embedding follows the consolidated C++ sources:
* Vector2D        (Preliminary/src/Snowball.cpp, Vector2D part)
* Circle          (BodyLine/src/Circle.cpp)
* Segment         (unnamed Segment.cpp, clampAngle / rotateTo / geometry)
* Body            (Final/src/Body.cpp)
* WalkerStrategy  (BodyLines-final/src/WalkerStrategy.cpp)
* SnowballStrategy (unnamed SnowballStrategy.cpp)

C++ doubles are modelled as real numbers.  Where the C++ code can produce a
non-finite double (NaN or infinity) the corresponding Lean value is an
Option, with none standing for a contaminated (non-finite) value; IEEE
comparisons against NaN are false, which the Option translation mirrors by
making every collision predicate false on none.  The unbounded C++
recursion over the child graph is modelled with an explicit fuel argument
(the C++ code only terminates on forests, where the recursion depth is
bounded by the number of segments, which is the fuel the Body operations
pass).
-/

noncomputable section

open Classical

namespace BodyLine

/-- A 2D vector with real components, modelling the C++ Vector2D value type. -/
structure Vector2D where
  x : ℝ
  y : ℝ

namespace Vector2D

/-- Componentwise addition (operator+). -/
def add (v w : Vector2D) : Vector2D := ⟨v.x + w.x, v.y + w.y⟩

/-- Componentwise subtraction (operator-). -/
def sub (v w : Vector2D) : Vector2D := ⟨v.x - w.x, v.y - w.y⟩

/-- Scalar multiplication (operator*). -/
def smul (v : Vector2D) (s : ℝ) : Vector2D := ⟨v.x * s, v.y * s⟩

/-- Division by a scalar (operator/): a zero scalar returns the vector
unchanged, avoiding a division by zero. -/
def vdiv (v : Vector2D) (s : ℝ) : Vector2D :=
  if s = 0 then v else ⟨v.x / s, v.y / s⟩

/-- Compound division assignment (operator/=): a zero scalar leaves both
components unchanged. -/
def vdivAssign (v : Vector2D) (s : ℝ) : Vector2D :=
  if s ≠ 0 then ⟨v.x / s, v.y / s⟩ else v

/-- Dot product. -/
def dot (v w : Vector2D) : ℝ := v.x * w.x + v.y * w.y

/-- Squared length. -/
def lengthSquared (v : Vector2D) : ℝ := v.x * v.x + v.y * v.y

/-- Length / magnitude of the vector. -/
def magnitude (v : Vector2D) : ℝ := Real.sqrt (v.x * v.x + v.y * v.y)

/-- Squared distance between two vectors. -/
def distanceSquared (v w : Vector2D) : ℝ := lengthSquared (sub v w)

/-- Distance between two vectors. -/
def distance (v w : Vector2D) : ℝ := magnitude (sub v w)

/-- normalize(): divides by the length unless the length is zero. -/
def normalizeVec (v : Vector2D) : Vector2D :=
  if magnitude v = 0 then v else ⟨v.x / magnitude v, v.y / magnitude v⟩

/-- Epsilon used by Vector2D::operator== for tolerant comparison. -/
def epsilon : ℝ := 1e-6

/-- Tolerant equality (operator==): both components within epsilon. -/
def veq (v w : Vector2D) : Prop := |v.x - w.x| < epsilon ∧ |v.y - w.y| < epsilon

end Vector2D

/-- A circle: center plus radius (BodyLine/src/Circle.cpp).  The optional
ballistic state is not needed by any claim about the strategy classes,
which keep their own projectile state. -/
structure Circle where
  center : Vector2D
  radius : ℝ

namespace Circle

/-- Circle::contains - membership test via squared distance. -/
def containsPt (c : Circle) (p : Vector2D) : Prop :=
  Vector2D.distanceSquared c.center p ≤ c.radius * c.radius

end Circle

/-! ### Angle arithmetic (Segment.cpp) -/

/-- Truncation toward zero, the semantics of a C++ double-to-int cast and
the quotient used by fmod. -/
def truncToInt (x : ℝ) : ℤ := if 0 ≤ x then ⌊x⌋ else ⌈x⌉

/-- C fmod: x - y * trunc(x / y); the result carries the sign of x. -/
def fmodReal (x y : ℝ) : ℝ := x - y * truncToInt (x / y)

/-- Normalization of an angle into the interval from 0 (inclusive) to 2π
(exclusive): fmod by 2π followed by a conditional correction of a negative
remainder, exactly as at the top of Segment::clampAngle. -/
def normalizeAngle (x : ℝ) : ℝ :=
  if fmodReal x (2 * Real.pi) < 0 then fmodReal x (2 * Real.pi) + 2 * Real.pi
  else fmodReal x (2 * Real.pi)

/-- Segment::clampAngle for a joint range given by minAngle and maxAngle:
normalize, then either clamp into a non-wrapping range, or, for a wrapping
range (minAngle greater than maxAngle), keep an in-range angle and
otherwise snap to the angularly closest bound. -/
def clampAngle (minAngle maxAngle θ : ℝ) : ℝ :=
  let normalized := normalizeAngle θ
  if minAngle ≤ maxAngle then
    min (max normalized minAngle) maxAngle
  else
    if minAngle ≤ normalized ∨ normalized ≤ maxAngle then
      normalized
    else
      let distToMin := min |normalized - minAngle| |normalized - (minAngle - 2 * Real.pi)|
      let distToMax := min |normalized - maxAngle| |normalized - (maxAngle + 2 * Real.pi)|
      if distToMin ≤ distToMax then minAngle else maxAngle

/-! Basic facts about normalizeAngle. -/

theorem two_pi_pos : (0 : ℝ) < 2 * Real.pi := by positivity

/-- The fmod-based normalization agrees with the floor-based fractional
part: normalizeAngle x = 2π * fract (x / 2π). -/
theorem normalizeAngle_eq_fract (x : ℝ) :
    normalizeAngle x = 2 * Real.pi * Int.fract (x / (2 * Real.pi)) := by
  have hTpos : (0 : ℝ) < 2 * Real.pi := two_pi_pos
  have hT0 : (2 * Real.pi : ℝ) ≠ 0 := ne_of_gt hTpos
  have key : x - 2 * Real.pi * (⌊x / (2 * Real.pi)⌋ : ℝ)
      = 2 * Real.pi * Int.fract (x / (2 * Real.pi)) := by
    rw [Int.fract, mul_sub, mul_div_cancel₀ x hT0]
  unfold normalizeAngle fmodReal truncToInt
  by_cases hz : 0 ≤ x / (2 * Real.pi)
  · rw [if_pos hz, key]
    have hfloor : (0 : ℝ) ≤ 2 * Real.pi * Int.fract (x / (2 * Real.pi)) := by
      have := Int.fract_nonneg (x / (2 * Real.pi))
      positivity
    rw [if_neg (not_lt.mpr hfloor)]
  · rw [if_neg hz]
    by_cases hfr : Int.fract (x / (2 * Real.pi)) = 0
    · have hfl : ((⌊x / (2 * Real.pi)⌋ : ℤ) : ℝ) = x / (2 * Real.pi) := by
        have h1 : x / (2 * Real.pi) - ⌊x / (2 * Real.pi)⌋ = 0 := hfr
        linarith
      have hceil : ⌈x / (2 * Real.pi)⌉ = ⌊x / (2 * Real.pi)⌋ := by
        rw [show x / (2 * Real.pi) = ((⌊x / (2 * Real.pi)⌋ : ℤ) : ℝ) from hfl.symm,
          Int.ceil_intCast, Int.floor_intCast]
      have hzero : x - 2 * Real.pi * (⌈x / (2 * Real.pi)⌉ : ℝ) = 0 := by
        rw [hceil]
        have := key
        rw [hfr, mul_zero] at this
        linarith
      rw [hzero, hfr, mul_zero, if_neg (lt_irrefl 0)]
    · have hceil : ((⌈x / (2 * Real.pi)⌉ : ℤ) : ℝ) = ((⌊x / (2 * Real.pi)⌋ : ℤ) : ℝ) + 1 := by
        rcases Int.fract_eq_zero_or_add_one_sub_ceil (x / (2 * Real.pi)) with h | h
        · exact absurd h hfr
        · have h2 : Int.fract (x / (2 * Real.pi))
              = x / (2 * Real.pi) - ⌊x / (2 * Real.pi)⌋ := rfl
          rw [h2] at h
          linarith
      have hrw : x - 2 * Real.pi * (⌈x / (2 * Real.pi)⌉ : ℝ)
          = 2 * Real.pi * Int.fract (x / (2 * Real.pi)) - 2 * Real.pi := by
        rw [hceil]
        have := key
        linarith [key]
      rw [hrw]
      have hlt : 2 * Real.pi * Int.fract (x / (2 * Real.pi)) - 2 * Real.pi < 0 := by
        have h1 := Int.fract_lt_one (x / (2 * Real.pi))
        nlinarith
      rw [if_pos hlt]
      ring

/-- normalizeAngle lands in the half-open interval from 0 to 2π. -/
theorem normalizeAngle_mem (x : ℝ) :
    0 ≤ normalizeAngle x ∧ normalizeAngle x < 2 * Real.pi := by
  rw [normalizeAngle_eq_fract]
  constructor
  · have := Int.fract_nonneg (x / (2 * Real.pi))
    positivity
  · have h1 := Int.fract_lt_one (x / (2 * Real.pi))
    calc 2 * Real.pi * Int.fract (x / (2 * Real.pi))
        < 2 * Real.pi * 1 := by
          exact mul_lt_mul_of_pos_left h1 two_pi_pos
      _ = 2 * Real.pi := mul_one _

/-- normalizeAngle is the identity on the interval from 0 to 2π. -/
theorem normalizeAngle_eq_self {x : ℝ} (h0 : 0 ≤ x) (h2 : x < 2 * Real.pi) :
    normalizeAngle x = x := by
  rw [normalizeAngle_eq_fract, Int.fract_eq_self.mpr]
  · field_simp
  · constructor
    · positivity
    · rw [div_lt_one two_pi_pos]
      exact h2

/-- normalizeAngle is invariant under adding a full turn. -/
theorem normalizeAngle_add_two_pi (x : ℝ) :
    normalizeAngle (x + 2 * Real.pi) = normalizeAngle x := by
  rw [normalizeAngle_eq_fract, normalizeAngle_eq_fract]
  have hT0 : (2 * Real.pi : ℝ) ≠ 0 := ne_of_gt two_pi_pos
  have h1 : (x + 2 * Real.pi) / (2 * Real.pi) = x / (2 * Real.pi) + 1 := by
    field_simp
  rw [h1]
  rw [show (1 : ℝ) = ((1 : ℤ) : ℝ) by norm_cast, Int.fract_add_int]

/-- The non-wrapping branch of clampAngle in closed form. -/
theorem clampAngle_nonwrap {lo hi : ℝ} (h : lo ≤ hi) (θ : ℝ) :
    clampAngle lo hi θ = min (max (normalizeAngle θ) lo) hi := by
  unfold clampAngle
  rw [if_pos h]

/-- The wrapping branch of clampAngle when the normalized angle is inside
the wrapped range. -/
theorem clampAngle_wrap_inRange {lo hi : ℝ} (h : ¬lo ≤ hi) (θ : ℝ)
    (hin : lo ≤ normalizeAngle θ ∨ normalizeAngle θ ≤ hi) :
    clampAngle lo hi θ = normalizeAngle θ := by
  unfold clampAngle
  rw [if_neg h, if_pos hin]

/-- The wrapping branch of clampAngle when the normalized angle is outside
the wrapped range: snap to the angularly closest bound. -/
theorem clampAngle_wrap_outRange {lo hi : ℝ} (h : ¬lo ≤ hi) (θ : ℝ)
    (hout : ¬(lo ≤ normalizeAngle θ ∨ normalizeAngle θ ≤ hi)) :
    clampAngle lo hi θ =
      if min |normalizeAngle θ - lo| |normalizeAngle θ - (lo - 2 * Real.pi)| ≤
          min |normalizeAngle θ - hi| |normalizeAngle θ - (hi + 2 * Real.pi)| then lo
      else hi := by
  unfold clampAngle
  rw [if_neg h, if_neg hout]

/-- Idempotence of clampAngle for every non-wrapping joint range. -/
theorem clampAngle_idem_nonwrap {lo hi : ℝ} (h : lo ≤ hi) (θ : ℝ) :
    clampAngle lo hi (clampAngle lo hi θ) = clampAngle lo hi θ := by
  rw [clampAngle_nonwrap h θ, clampAngle_nonwrap h]
  set N := normalizeAngle θ with hN
  obtain ⟨hN0, hN2⟩ := normalizeAngle_mem θ
  rcases le_or_lt hi (max N lo) with hcase | hcase
  · have hr : min (max N lo) hi = hi := min_eq_right hcase
    rw [hr]
    rcases lt_or_le hi 0 with hhi | hhi0
    · have hmem := normalizeAngle_mem hi
      have h1 : max (normalizeAngle hi) lo = normalizeAngle hi :=
        max_eq_left (by linarith [hmem.1])
      rw [h1]
      exact min_eq_right (by linarith [hmem.1])
    · rcases lt_or_le hi (2 * Real.pi) with hhi2 | hhi2
      · rw [normalizeAngle_eq_self hhi0 hhi2, max_eq_left h, min_self]
      · have hlo : hi ≤ lo := by
          rcases max_cases N lo with ⟨hm, _⟩ | ⟨hm, _⟩
          · rw [hm] at hcase
            linarith
          · rw [hm] at hcase
            exact hcase
        have hlohi : lo = hi := le_antisymm h hlo
        have hmem := normalizeAngle_mem hi
        have h1 : max (normalizeAngle hi) lo = lo :=
          max_eq_right (by rw [hlohi]; linarith [hmem.2])
        rw [h1, hlohi, min_self]
  · have hr : min (max N lo) hi = max N lo := min_eq_left (le_of_lt hcase)
    rw [hr]
    rcases le_or_lt lo N with hlo | hlo
    · have h1 : max N lo = N := max_eq_left hlo
      rw [h1] at hcase ⊢
      rw [normalizeAngle_eq_self hN0 hN2, max_eq_left hlo]
      exact min_eq_left (le_of_lt hcase)
    · have h1 : max N lo = lo := max_eq_right (le_of_lt hlo)
      rw [h1] at hcase ⊢
      have hlo0 : 0 ≤ lo := le_trans hN0 (le_of_lt hlo)
      rcases lt_or_le lo (2 * Real.pi) with hlo2 | hlo2
      · rw [normalizeAngle_eq_self hlo0 hlo2, max_self]
        exact min_eq_left (le_of_lt hcase)
      · have hmem := normalizeAngle_mem lo
        have h2 : max (normalizeAngle lo) lo = lo :=
          max_eq_right (by linarith [hmem.2])
        rw [h2]
        exact min_eq_left (le_of_lt hcase)

/-- Idempotence of clampAngle for every wrapping joint range whose two
bounds lie inside the normalized interval from 0 to 2π. -/
theorem clampAngle_idem_wrap {lo hi : ℝ} (h : ¬lo ≤ hi) (hhi0 : 0 ≤ hi)
    (hlo2 : lo < 2 * Real.pi) (θ : ℝ) :
    clampAngle lo hi (clampAngle lo hi θ) = clampAngle lo hi θ := by
  have hlo0 : 0 ≤ lo := le_trans hhi0 (le_of_lt (lt_of_not_le h))
  have hhilo : hi < lo := lt_of_not_le h
  have hhi2 : hi < 2 * Real.pi := lt_trans hhilo hlo2
  by_cases hin : lo ≤ normalizeAngle θ ∨ normalizeAngle θ ≤ hi
  · rw [clampAngle_wrap_inRange h θ hin]
    obtain ⟨h0, h2⟩ := normalizeAngle_mem θ
    rw [clampAngle_wrap_inRange h _ (by rwa [normalizeAngle_eq_self h0 h2])]
    exact normalizeAngle_eq_self h0 h2
  · rw [clampAngle_wrap_outRange h θ hin]
    by_cases hd : min |normalizeAngle θ - lo| |normalizeAngle θ - (lo - 2 * Real.pi)| ≤
        min |normalizeAngle θ - hi| |normalizeAngle θ - (hi + 2 * Real.pi)|
    · rw [if_pos hd]
      rw [clampAngle_wrap_inRange h lo
        (Or.inl (le_of_eq (normalizeAngle_eq_self hlo0 hlo2).symm))]
      exact normalizeAngle_eq_self hlo0 hlo2
    · rw [if_neg hd]
      rw [clampAngle_wrap_inRange h hi
        (Or.inr (le_of_eq (normalizeAngle_eq_self hhi0 hhi2)))]
      exact normalizeAngle_eq_self hhi0 hhi2

/-- Evaluation of clampAngle on the wrapping range from 7 to 1 at angle 6:
the angle is outside the wrapped range and the min bound is angularly
closer, so clampAngle returns the raw bound 7. -/
theorem clampAngle_seven_one_six : clampAngle 7 1 6 = 7 := by
  have hπ3 := Real.pi_gt_three
  have hπ4 := Real.pi_lt_d2
  have h : ¬(7 : ℝ) ≤ 1 := by norm_num
  have hN : normalizeAngle (6 : ℝ) = 6 :=
    normalizeAngle_eq_self (by norm_num) (by nlinarith)
  rw [clampAngle_wrap_outRange h 6 (by rw [hN]; push_neg; norm_num)]
  rw [hN]
  have e1 : |(6 : ℝ) - 7| = 1 := by
    rw [abs_of_nonpos (by norm_num)]
    ring
  have e2 : |(6 : ℝ) - (7 - 2 * Real.pi)| = 2 * Real.pi - 1 := by
    rw [abs_of_nonneg (by nlinarith)]
    ring
  have e3 : |(6 : ℝ) - 1| = 5 := by
    rw [abs_of_nonneg (by norm_num)]
    ring
  have e4 : |(6 : ℝ) - (1 + 2 * Real.pi)| = 2 * Real.pi - 5 := by
    rw [abs_of_nonpos (by nlinarith)]
    ring
  rw [e1, e2, e3, e4]
  rw [min_eq_left (by nlinarith), min_eq_right (by nlinarith)]
  rw [if_pos (by nlinarith)]

/-- Evaluation of clampAngle on the wrapping range from 7 to 1 at angle 7:
7 normalizes to 7 - 2π, which lies inside the wrapped range, so clampAngle
returns 7 - 2π rather than 7. -/
theorem clampAngle_seven_one_seven : clampAngle 7 1 7 = 7 - 2 * Real.pi := by
  have hπ3 := Real.pi_gt_three
  have hπ4 := Real.pi_lt_d2
  have h : ¬(7 : ℝ) ≤ 1 := by norm_num
  have h7 : (7 : ℝ) - 2 * Real.pi + 2 * Real.pi = 7 := by ring
  have hN : normalizeAngle (7 : ℝ) = 7 - 2 * Real.pi := by
    have hshift := normalizeAngle_add_two_pi (7 - 2 * Real.pi)
    rw [h7] at hshift
    rw [hshift]
    exact normalizeAngle_eq_self (by nlinarith) (by nlinarith)
  rw [clampAngle_wrap_inRange h 7 (by rw [hN]; right; nlinarith), hN]

/-- Claim C4 counterexample: clampAngle is not idempotent for every joint
range.  On the wrapping range with minAngle 7 and maxAngle 1 the input 6
clamps to the raw bound 7, but clamping 7 again yields 7 - 2π. -/
theorem c4_clampAngle_not_idempotent :
    clampAngle 7 1 (clampAngle 7 1 6) ≠ clampAngle 7 1 6 := by
  rw [clampAngle_seven_one_six, clampAngle_seven_one_seven]
  have hπ3 := Real.pi_gt_three
  intro hcontr
  nlinarith

/-- Claim C4 (amended): clampAngle is idempotent for every non-wrapping
joint range, and for every wrapping range whose bounds lie within the
normalized interval from 0 to 2π; idempotence can fail only for a wrapping
range with a bound outside that interval. -/
theorem c4_clampAngle_idem_amended (θ lo hi : ℝ)
    (h : lo ≤ hi ∨ (0 ≤ hi ∧ hi < lo ∧ lo < 2 * Real.pi)) :
    clampAngle lo hi (clampAngle lo hi θ) = clampAngle lo hi θ := by
  rcases h with h | ⟨h1, h2, h3⟩
  · exact clampAngle_idem_nonwrap h θ
  · exact clampAngle_idem_wrap (not_le.mpr h2) h1 h3 θ

/-- Witness for the amended claim C4 at the concrete non-wrapping range
from 0 to 1 and angle 3. -/
theorem c4_clampAngle_idem_amended_witness :
    clampAngle 0 1 (clampAngle 0 1 3) = clampAngle 0 1 3 :=
  c4_clampAngle_idem_amended 3 0 1 (Or.inl (by norm_num))

/-! ### Segment (Segment.cpp) -/

/-- A rigid link: identifier, start point, length, current angle and the
joint range.  The C++ class stores exactly these fields (plus a non-owning
parent pointer that the Body-level propagation replaces). -/
structure Segment where
  id : String
  start : Vector2D
  length : ℝ
  angle : ℝ
  minAngle : ℝ
  maxAngle : ℝ

namespace Segment

/-- The Segment constructor: enforces the 0.1 length floor and clamps the
initial angle into the joint range. -/
def mk' (id : String) (start : Vector2D) (length angle minAngle maxAngle : ℝ) : Segment :=
  ⟨id, start, max 0.1 length, clampAngle minAngle maxAngle angle, minAngle, maxAngle⟩

/-- Segment::getEnd - the end point computed from start, length and angle. -/
def endPoint (s : Segment) : Vector2D :=
  ⟨s.start.x + s.length * Real.cos s.angle, s.start.y + s.length * Real.sin s.angle⟩

/-- Segment::setStart. -/
def setStart (s : Segment) (p : Vector2D) : Segment := { s with start := p }

/-- Segment::rotateTo - clamps the requested angle, stores the clamped value
and returns true exactly when no clamping was needed (clamped == requested). -/
def rotateTo (s : Segment) (targetAngle : ℝ) : Segment × Bool :=
  let clamped := clampAngle s.minAngle s.maxAngle targetAngle
  ({ s with angle := clamped }, decide (clamped = targetAngle))

/-- Segment::rotate - a relative rotation, implemented via rotateTo. -/
def rotate (s : Segment) (deltaAngle : ℝ) : Segment × Bool :=
  rotateTo s (s.angle + deltaAngle)

/-- Segment::closestPointTo - point-to-segment projection clamped to the
segment.  (With a degenerate segment the C++ division by a zero squared
length yields NaN; the length floor of the constructor rules that out for
segments built through the API.) -/
def closestPointTo (s : Segment) (point : Vector2D) : Vector2D :=
  let segmentVec := Vector2D.sub (endPoint s) s.start
  let pointVec := Vector2D.sub point s.start
  let projection := max 0 (min 1 (Vector2D.dot pointVec segmentVec / Vector2D.lengthSquared segmentVec))
  Vector2D.add s.start (Vector2D.smul segmentVec projection)

/-- Segment::distanceToPoint. -/
def distanceToPoint (s : Segment) (point : Vector2D) : ℝ :=
  Vector2D.distance point (closestPointTo s point)

/-- Segment::isStartContactingGround with the default threshold 1.0. -/
def isStartContactingGround (s : Segment) (groundLevel : ℝ) : Prop :=
  |s.start.y - groundLevel| ≤ 1

/-- Segment::isEndContactingGround with the default threshold 1.0. -/
def isEndContactingGround (s : Segment) (groundLevel : ℝ) : Prop :=
  |(endPoint s).y - groundLevel| ≤ 1

end Segment

/-- Evaluation helper: the angle -1 normalizes to 2π - 1. -/
theorem normalizeAngle_neg_one : normalizeAngle (-1 : ℝ) = 2 * Real.pi - 1 := by
  have hπ3 := Real.pi_gt_three
  have hshift := normalizeAngle_add_two_pi (-1)
  have h1 : (-1 : ℝ) + 2 * Real.pi = 2 * Real.pi - 1 := by ring
  rw [h1] at hshift
  rw [← hshift]
  exact normalizeAngle_eq_self (by nlinarith) (by nlinarith)

/-- Claim C9: for a target angle outside the normalized interval from 0 to
2π whose normalized equivalent lies strictly inside the joint range,
Segment::rotateTo reports the rotation as constrained (returns false),
because the was-constrained test compares the clamped result against the
raw un-normalized request; the stored angle is still set to the clamped
(here: normalized) value. -/
theorem c9_rotateTo_unnormalized_request (s : Segment) (t : ℝ)
    (hout : t < 0 ∨ 2 * Real.pi ≤ t)
    (hin : (s.minAngle ≤ s.maxAngle ∧ s.minAngle < normalizeAngle t ∧
              normalizeAngle t < s.maxAngle) ∨
           (s.maxAngle < s.minAngle ∧
              (s.minAngle < normalizeAngle t ∨ normalizeAngle t < s.maxAngle))) :
    (Segment.rotateTo s t).2 = false ∧
      (Segment.rotateTo s t).1.angle = normalizeAngle t := by
  have hclamp : clampAngle s.minAngle s.maxAngle t = normalizeAngle t := by
    rcases hin with ⟨hle, h1, h2⟩ | ⟨hgt, hdisj⟩
    · rw [clampAngle_nonwrap hle t, max_eq_left (le_of_lt h1)]
      exact min_eq_left (le_of_lt h2)
    · exact clampAngle_wrap_inRange (not_le.mpr hgt) t (hdisj.imp le_of_lt le_of_lt)
  have hne : normalizeAngle t ≠ t := by
    obtain ⟨h0, h2⟩ := normalizeAngle_mem t
    rcases hout with h | h
    · intro he
      rw [he] at h0
      linarith
    · intro he
      rw [he] at h2
      linarith
  constructor
  · simp only [Segment.rotateTo, hclamp]
    exact decide_eq_false hne
  · simp [Segment.rotateTo, hclamp]

/-- Witness for claim C9: a segment with the non-wrapping joint range from
0 to 7 and the request -1, whose normalized equivalent 2π - 1 is strictly
inside the range. -/
theorem c9_rotateTo_unnormalized_request_witness :
    (Segment.rotateTo ⟨"seg", ⟨0, 0⟩, 1, 0, 0, 7⟩ (-1)).2 = false ∧
      (Segment.rotateTo ⟨"seg", ⟨0, 0⟩, 1, 0, 0, 7⟩ (-1)).1.angle = normalizeAngle (-1) := by
  have hπ3 := Real.pi_gt_three
  have hπ4 := Real.pi_lt_d2
  apply c9_rotateTo_unnormalized_request
  · left
    norm_num
  · left
    refine ⟨by norm_num, ?_, ?_⟩
    · rw [normalizeAngle_neg_one]
      show (0 : ℝ) < 2 * Real.pi - 1
      nlinarith
    · rw [normalizeAngle_neg_one]
      show 2 * Real.pi - 1 < (7 : ℝ)
      nlinarith

/-! ### Body (Final/src/Body.cpp)

The C++ Body owns a name-keyed map of segments and a name-keyed map of
child lists.  Both are modelled as association lists in a fixed, stable
order; all Body operations either look a name up, replace the first entry
with a given name in place, or iterate the whole container, so every
behaviour a claim refers to is order-independent or deterministic in the
chosen order.  The unbounded C++ recursion over the child graph carries an
explicit fuel (the segment count, an upper bound for the depth of any
forest, which is the only topology on which the C++ recursion
terminates). -/

/-- Look up a segment by name (first entry with the given id). -/
def findSegment (segs : List Segment) (name : String) : Option Segment :=
  segs.find? (fun s => s.id = name)

/-- Replace the first segment with the given name. -/
def replaceSegmentList (segs : List Segment) (name : String) (s' : Segment) : List Segment :=
  match segs with
  | [] => []
  | s :: rest =>
      if s.id = name then s' :: rest else s :: replaceSegmentList rest name s'

/-- Set the start point of the first segment with the given name. -/
def setStartList (segs : List Segment) (name : String) (p : Vector2D) : List Segment :=
  match segs with
  | [] => []
  | s :: rest =>
      if s.id = name then { s with start := p } :: rest else s :: setStartList rest name p

/-- Look up the child list recorded for a parent name. -/
def lookupConnections (conns : List (String × List String)) (name : String) :
    Option (List String) :=
  (conns.find? (fun c => c.1 = name)).map (fun c => c.2)

/-- Append a child to the parent entry of the connection table, creating
the entry when absent (the effect of connections[parentName].push_back). -/
def addToConnections (conns : List (String × List String)) (parent child : String) :
    List (String × List String) :=
  match conns with
  | [] => [(parent, [child])]
  | c :: rest =>
      if c.1 = parent then (c.1, c.2 ++ [child]) :: rest
      else c :: addToConnections rest parent child

/-- Whether a name occurs in some child list (used for root detection). -/
def isChildName (conns : List (String × List String)) (name : String) : Prop :=
  ∃ c ∈ conns, name ∈ c.2

/-- The articulated body: named segments, parent-to-children edges, base
position and ground level. -/
structure Body where
  segments : List Segment
  connections : List (String × List String)
  basePosition : Vector2D
  groundLevel : ℝ

namespace Body

/-- Body::getSegment. -/
def getSegment (b : Body) (name : String) : Option Segment :=
  findSegment b.segments name

/-- Internal: overwrite the start point of a named segment. -/
def setSegStart (b : Body) (name : String) (p : Vector2D) : Body :=
  { b with segments := setStartList b.segments name p }

/-- Body::addSegment - rejects duplicate names, otherwise inserts a new
segment whose start is the current base position. -/
def addSegment (b : Body) (name : String) (length angle minAngle maxAngle : ℝ) : Body :=
  if (getSegment b name).isSome then b
  else { b with
    segments := b.segments ++ [Segment.mk' name b.basePosition length angle minAngle maxAngle] }

/-- Body::connectSegment - requires both segments to exist, records the
edge and snaps the child start to the parent end. -/
def connectSegment (b : Body) (parentName childName : String) : Body :=
  match getSegment b parentName, getSegment b childName with
  | some parentSeg, some _ =>
      { b with
        connections := addToConnections b.connections parentName childName,
        segments := setStartList b.segments childName (Segment.endPoint parentSeg) }
  | _, _ => b

/-- Body::isEndPoint - a segment with no recorded children. -/
def isEndPoint (b : Body) (name : String) : Prop :=
  lookupConnections b.connections name = none

end Body

mutual

/-- Body::updateChildSegments - resets every recorded child start to the
parent current end and recurses; the fuel bounds the recursion depth. -/
def updateChildSegments : ℕ → Body → String → Body
  | 0, b, _ => b
  | fuel + 1, b, parentName =>
      match lookupConnections b.connections parentName with
      | none => b
      | some children =>
          match Body.getSegment b parentName with
          | none => b
          | some _ => updateChildrenFrom fuel b parentName children

/-- The loop body of Body::updateChildSegments over the recorded child
list.  The C++ loop reads the parent end through a pointer obtained before
the loop; looking the parent up afresh by name is equivalent because
updates replace the named entry in place. -/
def updateChildrenFrom : ℕ → Body → String → List String → Body
  | _, b, _, [] => b
  | fuel, b, parentName, childName :: rest =>
      let b' :=
        match Body.getSegment b childName, Body.getSegment b parentName with
        | some _, some parentSeg =>
            updateChildSegments fuel
              (Body.setSegStart b childName (Segment.endPoint parentSeg)) childName
        | _, _ => b
      updateChildrenFrom fuel b' parentName rest

end

namespace Body

/-- Body::rotateSegmentTo - rotate a named segment toward a target angle,
then propagate to descendants, but only when the rotation succeeded
unclamped. -/
def rotateSegmentTo (b : Body) (name : String) (targetAngle : ℝ) : Body × Bool :=
  match getSegment b name with
  | none => (b, false)
  | some seg =>
      let r := Segment.rotateTo seg targetAngle
      let b' := { b with segments := replaceSegmentList b.segments name r.1 }
      if r.2 then (updateChildSegments b'.segments.length b' name, true)
      else (b', false)

/-- Body::rotateSegment - relative rotation via Segment::rotate, with the
same success-gated propagation. -/
def rotateSegment (b : Body) (name : String) (deltaAngle : ℝ) : Body × Bool :=
  match getSegment b name with
  | none => (b, false)
  | some seg =>
      let r := Segment.rotate seg deltaAngle
      let b' := { b with segments := replaceSegmentList b.segments name r.1 }
      if r.2 then (updateChildSegments b'.segments.length b' name, true)
      else (b', false)

/-- Body::moveBaseTo - update the base position, translate every root
segment by the displacement and propagate to its descendants. -/
def moveBaseTo (b : Body) (newBase : Vector2D) : Body :=
  let displacement := Vector2D.sub newBase b.basePosition
  let b1 : Body := { b with basePosition := newBase }
  (b1.segments.map (fun s => s.id)).foldl
    (fun acc name =>
      if isChildName acc.connections name then acc
      else
        match getSegment acc name with
        | none => acc
        | some seg =>
            let acc' := setSegStart acc name (Vector2D.add seg.start displacement)
            updateChildSegments acc'.segments.length acc' name)
    b1

/-- The per-root step of Body::updateSegments: pin the root start to the
base position and propagate to its descendants. -/
def layoutRootStep (acc : Body) (rootName : String) : Body :=
  let acc' := setSegStart acc rootName acc.basePosition
  updateChildSegments acc'.segments.length acc' rootName

/-- Body::updateSegments - full re-layout: find the root segments (those
recorded as nobody's child), pin every root start to the base position
and propagate down. -/
def updateSegments (b : Body) : Body :=
  let rootNames := (b.segments.map (fun s => s.id)).filter
    (fun n => ¬ isChildName b.connections n)
  rootNames.foldl layoutRootStep b

/-- Body::countGroundContacts - over all segments, count the endpoints
within the contact threshold of the ground level. -/
def countGroundContacts (b : Body) : ℕ :=
  b.segments.foldl
    (fun count s =>
      count + (if Segment.isStartContactingGround s b.groundLevel then 1 else 0) +
        (if Segment.isEndContactingGround s b.groundLevel then 1 else 0))
    0

/-- Body::hasMinimumGroundContacts. -/
def hasMinimumGroundContacts (b : Body) (minContacts : ℕ) : Prop :=
  minContacts ≤ countGroundContacts b

/-- Body::getSegmentsTouchingObject - the names of the leaf segments whose
end point is inside the circle or whose distance to the circle center is
at most the radius. -/
def getSegmentsTouchingObject (b : Body) (object : Circle) : List String :=
  b.segments.filterMap
    (fun s =>
      if isEndPoint b s.id ∧
          (Circle.containsPt object (Segment.endPoint s) ∨
            Segment.distanceToPoint s object.center ≤ object.radius)
      then some s.id else none)

/-- Body::canReachObject - at least minTouchingPoints touching leaves. -/
def canReachObject (b : Body) (object : Circle) (minTouchingPoints : ℕ) : Prop :=
  minTouchingPoints ≤ (getSegmentsTouchingObject b object).length

/-- Body::getSegmentLines - the rendered (start, end) pair per segment. -/
def getSegmentLines (b : Body) : List (Vector2D × Vector2D) :=
  b.segments.map (fun s => (s.start, Segment.endPoint s))

end Body

/-! ### Claim C1: the propagation invariant -/

/-- The propagation invariant of the spec: every recorded (parent, child)
edge has the child start equal to the parent end within the Vector2D
comparison epsilon. -/
def connectionsConsistent (b : Body) : Prop :=
  ∀ pc ∈ b.connections, ∀ c ∈ pc.2,
    ∀ ps cs, Body.getSegment b pc.1 = some ps → Body.getSegment b c = some cs →
      Vector2D.veq cs.start (Segment.endPoint ps)

/-- A consistent two-segment chain: the parent at the origin pointing along
the x axis with joint range from 0 to π/2, and its child starting at the
parent end. -/
def c1Body : Body :=
  { segments :=
      [⟨"parent", ⟨0, 0⟩, 1, 0, 0, Real.pi / 2⟩,
       ⟨"child", ⟨1, 0⟩, 1, 0, -Real.pi, Real.pi⟩],
    connections := [("parent", ["child"])],
    basePosition := ⟨0, 0⟩,
    groundLevel := 400 }

/-- clampAngle evaluation used for claim C1: the request π on the range
from 0 to π/2 clamps to π/2. -/
theorem clampAngle_c1_eval : clampAngle 0 (Real.pi / 2) Real.pi = Real.pi / 2 := by
  have hπ := Real.pi_pos
  rw [clampAngle_nonwrap (by positivity) Real.pi,
    normalizeAngle_eq_self (le_of_lt hπ) (by linarith),
    max_eq_left (le_of_lt hπ), min_eq_right (by linarith)]

/-- Claim C1 fails on the code: rotating the parent to π is clamped to π/2
(rotateTo returns false), the parent geometry still changes, but the
propagation pass is skipped, leaving the child start away from the new
parent end.  The first conjunct shows the invariant held before the call,
the second that the operation completed reporting a constrained rotation,
and the third that the invariant is broken afterwards. -/
theorem c1_rotateSegmentTo_clamped_breaks_propagation :
    connectionsConsistent c1Body ∧
      (Body.rotateSegmentTo c1Body "parent" Real.pi).2 = false ∧
      ¬ connectionsConsistent (Body.rotateSegmentTo c1Body "parent" Real.pi).1 := by
  have hπ := Real.pi_pos
  have hget : Body.getSegment c1Body "parent" =
      some ⟨"parent", ⟨0, 0⟩, 1, 0, 0, Real.pi / 2⟩ := by
    simp [Body.getSegment, findSegment, c1Body, List.find?]
  have hne : clampAngle 0 (Real.pi / 2) Real.pi ≠ Real.pi := by
    rw [clampAngle_c1_eval]
    intro h
    have : Real.pi = 0 := by linarith
    linarith
  have hrot : Segment.rotateTo (⟨"parent", ⟨0, 0⟩, 1, 0, 0, Real.pi / 2⟩ : Segment) Real.pi
      = (⟨"parent", ⟨0, 0⟩, 1, Real.pi / 2, 0, Real.pi / 2⟩, false) := by
    simp only [Segment.rotateTo]
    rw [Prod.ext_iff]
    constructor
    · simp [clampAngle_c1_eval]
    · simp only []
      exact decide_eq_false hne
  have hres : Body.rotateSegmentTo c1Body "parent" Real.pi =
      ({ c1Body with segments :=
          [⟨"parent", ⟨0, 0⟩, 1, Real.pi / 2, 0, Real.pi / 2⟩,
           ⟨"child", ⟨1, 0⟩, 1, 0, -Real.pi, Real.pi⟩] }, false) := by
    simp only [Body.rotateSegmentTo, hget, hrot]
    simp [replaceSegmentList, c1Body]
  refine ⟨?_, ?_, ?_⟩
  · intro pc hpc c hc ps cs hps hcs
    simp only [c1Body, List.mem_singleton] at hpc
    subst hpc
    simp only [List.mem_singleton] at hc
    subst hc
    rw [hget] at hps
    have hcs' : Body.getSegment c1Body "child" =
        some ⟨"child", ⟨1, 0⟩, 1, 0, -Real.pi, Real.pi⟩ := by
      simp [Body.getSegment, findSegment, c1Body, List.find?]
    rw [hcs'] at hcs
    cases hps
    cases hcs
    constructor
    · simp [Segment.endPoint, Vector2D.epsilon, Real.cos_zero]
      norm_num
    · simp [Segment.endPoint, Vector2D.epsilon, Real.sin_zero]
      norm_num
  · rw [hres]
  · rw [hres]
    intro hcons
    have h1 : (("parent", ["child"]) : String × List String) ∈
        ({ c1Body with segments :=
            [⟨"parent", ⟨0, 0⟩, 1, Real.pi / 2, 0, Real.pi / 2⟩,
             ⟨"child", ⟨1, 0⟩, 1, 0, -Real.pi, Real.pi⟩] } : Body).connections := by
      simp [c1Body]
    have h2 := hcons _ h1 "child" (by simp) ⟨"parent", ⟨0, 0⟩, 1, Real.pi / 2, 0, Real.pi / 2⟩
      ⟨"child", ⟨1, 0⟩, 1, 0, -Real.pi, Real.pi⟩
      (by simp [Body.getSegment, findSegment, List.find?])
      (by simp [Body.getSegment, findSegment, List.find?])
    obtain ⟨hx, -⟩ := h2
    rw [Segment.endPoint] at hx
    simp only [Real.cos_pi_div_two] at hx
    rw [Vector2D.epsilon] at hx
    norm_num at hx

/-! ### WalkerStrategy (BodyLines-final/src/WalkerStrategy.cpp) -/

/-- The Move::Type enumeration. -/
inductive MoveType
  | walk
  | reach
  | grab
deriving DecidableEq

/-- A planned atomic move.  The C++ struct leaves the fields that a given
move kind does not use default-constructed; the model fills them with
zeros and the empty string. -/
structure Move where
  type : MoveType
  position : Vector2D
  segmentName : String
  rotationAmount : ℝ

/-- The WalkerStrategy state: walk speed, FIFO move queue, catch flag,
progress counter and the two gate thresholds (2 ground contacts, 3 object
contacts).  The C++ progress counter is incremented only inside the
logging branch, hence the hasLogger flag. -/
structure WalkerState where
  walkSpeed : ℝ
  plannedMoves : List Move
  objectCaught : Bool
  currentMoveIndex : ℤ
  minGroundContacts : ℕ
  minObjectContacts : ℕ
  hasLogger : Bool

namespace WalkerStrategy

/-- The WalkerStrategy constructor. -/
def mkWalker (walkSpeed : ℝ) (hasLogger : Bool) : WalkerState :=
  ⟨walkSpeed, [], false, 0, 2, 3, hasLogger⟩

/-- Closed form of the two rotation-normalization while loops: repeatedly
subtract a full turn while above π, then repeatedly add one while below
-π. -/
def normalizeRotation (x : ℝ) : ℝ :=
  if Real.pi < x then x - 2 * Real.pi * ⌈(x - Real.pi) / (2 * Real.pi)⌉
  else if x < -Real.pi then x + 2 * Real.pi * ⌈(-Real.pi - x) / (2 * Real.pi)⌉
  else x

/-- The C library atan2, case-split on the quadrant. -/
def atan2 (y x : ℝ) : ℝ :=
  if 0 < x then Real.arctan (y / x)
  else if x < 0 then
    if 0 ≤ y then Real.arctan (y / x) + Real.pi else Real.arctan (y / x) - Real.pi
  else if 0 < y then Real.pi / 2
  else if y < 0 then -(Real.pi / 2)
  else 0

/-- WalkerStrategy::addWalkingSequence - the walk moves toward the target:
none when the body is within the 50-unit reach distance, otherwise one
walkSpeed-sized step per truncated quotient of the walking distance. -/
def addWalkingSequence (startPos targetPos : Vector2D) (walkSpeed : ℝ) : List Move :=
  let distance := Vector2D.magnitude (Vector2D.sub targetPos startPos)
  let walkingDistance := distance - 50
  if walkingDistance ≤ 0 then []
  else
    let numWalkingSteps := (truncToInt (walkingDistance / walkSpeed)).toNat
    let stepVector := Vector2D.smul (Vector2D.normalizeVec (Vector2D.sub targetPos startPos)) walkSpeed
    (List.range numWalkingSteps).map
      (fun (i : ℕ) =>
        ⟨MoveType.walk, Vector2D.add startPos (Vector2D.smul stepVector ((i : ℝ) + 1)), "", 0⟩)

/-- The designated reaching segments. -/
def reachingSegmentNames : List String :=
  ["left_lower_arm", "right_lower_arm", "left_hand", "right_hand"]

/-- The loop body of addReachingSequence: skip a missing segment,
otherwise append one reach move whose rotation is the normalized
difference between the atan2 direction to the target and the current
segment angle. -/
def reachStep (b : Body) (targetPos : Vector2D) (acc : List Move) (segmentName : String) :
    List Move :=
  match Body.getSegment b segmentName with
  | none => acc
  | some seg =>
      let toTarget := Vector2D.sub targetPos seg.start
      let targetAngle := atan2 toTarget.y toTarget.x
      acc ++ [⟨MoveType.reach, targetPos, segmentName,
        normalizeRotation (targetAngle - seg.angle)⟩]

/-- WalkerStrategy::addReachingSequence - one reach move per designated
segment that exists in the body, followed by a single grab move. -/
def addReachingSequence (b : Body) (targetPos : Vector2D) : List Move :=
  (reachingSegmentNames.foldl (reachStep b targetPos) []) ++ [⟨MoveType.grab, ⟨0, 0⟩, "", 0⟩]

/-- WalkerStrategy::planSequence - clear the queue and the flags, then plan
walking followed by reaching and grabbing. -/
def planSequence (w : WalkerState) (b : Body) (objectPosition : Vector2D) : WalkerState :=
  { w with
    plannedMoves := addWalkingSequence b.basePosition objectPosition w.walkSpeed ++
      addReachingSequence b objectPosition,
    objectCaught := false,
    currentMoveIndex := 0 }

/-- WalkerStrategy::executeWalkMove - gated by the minimum ground
contacts, then moves the base. -/
def executeWalkMove (w : WalkerState) (b : Body) (m : Move) : Body × Bool :=
  if Body.hasMinimumGroundContacts b w.minGroundContacts then
    (Body.moveBaseTo b m.position, true)
  else (b, false)

/-- WalkerStrategy::executeReachMove - same gate, then rotate the named
segment by the planned amount. -/
def executeReachMove (w : WalkerState) (b : Body) (m : Move) : Body × Bool :=
  if Body.hasMinimumGroundContacts b w.minGroundContacts then
    match Body.getSegment b m.segmentName with
    | none => (b, false)
    | some _ => Body.rotateSegment b m.segmentName m.rotationAmount
  else (b, false)

/-- WalkerStrategy::executeNextMove - a no-op returning false on an empty
queue, otherwise pops the front move, performs it, and reports its
success; the queue position is consumed whether or not the move
succeeds. -/
def executeNextMove (w : WalkerState) (b : Body) (target : Circle) :
    WalkerState × Body × Bool :=
  match w.plannedMoves with
  | [] => (w, b, false)
  | currentMove :: rest =>
      let w1 : WalkerState := { w with plannedMoves := rest }
      let step : WalkerState × Body × Bool :=
        match currentMove.type with
        | MoveType.walk =>
            let r := executeWalkMove w1 b currentMove
            (w1, r.1, r.2)
        | MoveType.reach =>
            let r := executeReachMove w1 b currentMove
            (w1, r.1, r.2)
        | MoveType.grab =>
            if Body.canReachObject b target w1.minObjectContacts then
              ({ w1 with objectCaught := true }, b, true)
            else (w1, b, false)
      ({ step.1 with currentMoveIndex :=
          if w.hasLogger then step.1.currentMoveIndex + 1 else step.1.currentMoveIndex },
        step.2.1, step.2.2)

/-- WalkerStrategy::isSequenceComplete. -/
def isSequenceComplete (w : WalkerState) : Prop :=
  w.plannedMoves = []

end WalkerStrategy

/-! ### SnowballStrategy (unnamed SnowballStrategy.cpp)

The projectile position and velocity are doubles in C++; a NaN or
infinite double (produced by the unguarded sqrt and divisions of the aim
computation) is modelled as none.  Every IEEE comparison against NaN is
false, so each collision predicate is false on none, which the Option
translation mirrors. -/

/-- The SnowballStrategy state: status flags, projectile state, the
physical constants, and a snapshot of the referenced ground level and
target circle (the strategy reads them through shared references that no
claim mutates mid-flight). -/
structure SnowballState where
  active : Bool
  hitTarget : Bool
  hitGround : Bool
  position : Option Vector2D
  velocity : Option Vector2D
  gravity : ℝ
  radius : ℝ
  groundLevel : ℝ
  targetCenter : Vector2D
  targetRadius : ℝ

namespace SnowballStrategy

/-- The SnowballStrategy constructor: inactive, cleared flags, projectile
at the origin with zero velocity. -/
def mkSnowball (gravity radius groundLevel : ℝ) (targetCenter : Vector2D)
    (targetRadius : ℝ) : SnowballState :=
  ⟨false, false, false, some ⟨0, 0⟩, some ⟨0, 0⟩, gravity, radius, groundLevel,
    targetCenter, targetRadius⟩

/-- The aim computation of executeNextMove: launch position 50 units above
the body base, time of flight sqrt(2 dx / g), velocity (dx/t, -g t/2 +
dy/t).  The C++ performs the sqrt and the divisions unguarded; whenever
2 dx / g is not positive the doubles come out NaN or infinite, modelled
here as none. -/
def snowballAim (bodyBase targetCenter : Vector2D) (gravity : ℝ) :
    Vector2D × Option Vector2D :=
  let pos : Vector2D := ⟨bodyBase.x, bodyBase.y - 50⟩
  let dx := targetCenter.x - pos.x
  let dy := targetCenter.y - pos.y
  if 0 < 2 * dx / gravity then
    let time := Real.sqrt (2 * dx / gravity)
    (pos, some ⟨dx / time, -gravity * time / 2 + dy / time⟩)
  else (pos, none)

/-- SnowballStrategy::throwSnowball - a no-op when already active,
otherwise activates and clears both hit flags. -/
def throwSnowball (s : SnowballState) : SnowballState :=
  if s.active then s
  else { s with active := true, hitTarget := false, hitGround := false }

/-- SnowballStrategy::executeNextMove - when idle with no recorded hit,
auto-aim if the position is still the origin, then throw and report
true. -/
def executeNextMove (s : SnowballState) (bodyBase : Vector2D) :
    SnowballState × Bool :=
  if s.active = false ∧ s.hitTarget = false ∧ s.hitGround = false then
    let s1 :=
      if s.position = some ⟨0, 0⟩ then
        let aim := snowballAim bodyBase s.targetCenter s.gravity
        { s with position := some aim.1, velocity := aim.2 }
      else s
    (throwSnowball s1, true)
  else (s, false)

/-- SnowballStrategy::prepareThrow. -/
def prepareThrow (s : SnowballState) (pos vel : Vector2D) : SnowballState :=
  { s with
    position := some pos, velocity := some vel,
    active := false, hitTarget := false, hitGround := false }

/-- SnowballStrategy::reset (also the body of planSequence, which resets
and logs). -/
def reset (s : SnowballState) : SnowballState :=
  { s with
    active := false, hitTarget := false, hitGround := false,
    position := some ⟨0, 0⟩, velocity := some ⟨0, 0⟩ }

/-- SnowballStrategy::updatePhysics - semi-implicit Euler: gravity into
the vertical velocity first, then the position update. -/
def updatePhysics (s : SnowballState) (dt : ℝ) : SnowballState :=
  let velocity' := s.velocity.map (fun v => (⟨v.x, v.y + s.gravity * dt⟩ : Vector2D))
  let position' :=
    match s.position, velocity' with
    | some p, some v => some (⟨p.x + v.x * dt, p.y + v.y * dt⟩ : Vector2D)
    | _, _ => none
  { s with velocity := velocity', position := position' }

/-- SnowballStrategy::checkGroundCollision - bottom edge at or below the
ground level (false on a non-finite position, as in IEEE). -/
def checkGroundCollision (s : SnowballState) : Prop :=
  ∃ p, s.position = some p ∧ s.groundLevel ≤ p.y + s.radius

/-- SnowballStrategy::checkTargetCollision - center distance within the
sum of the radii (false on a non-finite position). -/
def checkTargetCollision (s : SnowballState) : Prop :=
  ∃ p, s.position = some p ∧
    Vector2D.magnitude (Vector2D.sub p s.targetCenter) ≤ s.radius + s.targetRadius

/-- SnowballStrategy::checkCollisions - ground first, then target;
whichever triggers sets its flag, clears active and returns. -/
def checkCollisions (s : SnowballState) : SnowballState :=
  if checkGroundCollision s then { s with hitGround := true, active := false }
  else if checkTargetCollision s then { s with hitTarget := true, active := false }
  else s

/-- SnowballStrategy::update - integrate then check collisions, only while
active. -/
def update (s : SnowballState) (dt : ℝ) : SnowballState :=
  if s.active = false then s else checkCollisions (updatePhysics s dt)

/-- The states reachable through the public SnowballStrategy interface
from a freshly constructed strategy. -/
inductive Reachable : SnowballState → Prop
  | init (gravity radius groundLevel : ℝ) (targetCenter : Vector2D) (targetRadius : ℝ) :
      Reachable (mkSnowball gravity radius groundLevel targetCenter targetRadius)
  | resetStep {s : SnowballState} : Reachable s → Reachable (reset s)
  | prepareStep {s : SnowballState} (pos vel : Vector2D) :
      Reachable s → Reachable (prepareThrow s pos vel)
  | throwStep {s : SnowballState} : Reachable s → Reachable (throwSnowball s)
  | execStep {s : SnowballState} (bodyBase : Vector2D) :
      Reachable s → Reachable (executeNextMove s bodyBase).1
  | updateStep {s : SnowballState} (dt : ℝ) : Reachable s → Reachable (update s dt)

/-- The flag invariant: the two terminal flags are never both set, and an
active projectile has neither set. -/
def flagsInv (s : SnowballState) : Prop :=
  ¬(s.hitGround = true ∧ s.hitTarget = true) ∧
    (s.active = true → s.hitGround = false ∧ s.hitTarget = false)

/-- Every reachable SnowballStrategy state satisfies the flag
invariant. -/
theorem reachable_flagsInv {s : SnowballState} (h : Reachable s) : flagsInv s := by
  induction h with
  | init gravity radius groundLevel targetCenter targetRadius =>
      constructor
      · intro h
        exact absurd h.1 (by simp [mkSnowball])
      · intro h
        exact absurd h (by simp [mkSnowball])
  | resetStep hr ih =>
      constructor
      · intro h
        exact absurd h.1 (by simp [reset])
      · intro h
        simp [reset]
  | prepareStep pos vel hr ih =>
      constructor
      · intro h
        exact absurd h.1 (by simp [prepareThrow])
      · intro h
        simp [prepareThrow]
  | throwStep hr ih =>
      rename_i s'
      unfold throwSnowball
      by_cases h : s'.active
      · rw [if_pos h]
        exact ih
      · rw [if_neg h]
        constructor
        · intro hcontr
          simp at hcontr
        · intro hcontr
          simp
  | execStep bodyBase hr ih =>
      rename_i s'
      unfold executeNextMove
      by_cases h : s'.active = false ∧ s'.hitTarget = false ∧ s'.hitGround = false
      · rw [if_pos h]
        simp only []
        unfold throwSnowball
        by_cases hpos : s'.position = some ⟨0, 0⟩
        · rw [if_pos hpos]
          simp only []
          rw [if_neg (by simp [h.1])]
          constructor
          · intro hcontr
            simp at hcontr
          · intro hcontr
            simp
        · rw [if_neg hpos]
          rw [if_neg (by simp [h.1])]
          constructor
          · intro hcontr
            simp at hcontr
          · intro hcontr
            simp
      · rw [if_neg h]
        exact ih
  | updateStep dt hr ih =>
      rename_i s'
      unfold update
      by_cases h : s'.active = false
      · rw [if_pos h]
        exact ih
      · rw [if_neg h]
        have hflags := ih.2 (by revert h; cases s'.active <;> simp)
        unfold checkCollisions
        by_cases hg : checkGroundCollision (updatePhysics s' dt)
        · rw [if_pos hg]
          constructor
          · intro hcontr
            have : s'.hitTarget = true := hcontr.2
            rw [hflags.2] at this
            exact Bool.false_ne_true this
          · intro hcontr
            simp at hcontr
        · rw [if_neg hg]
          by_cases ht : checkTargetCollision (updatePhysics s' dt)
          · rw [if_pos ht]
            constructor
            · intro hcontr
              have : s'.hitGround = true := hcontr.1
              rw [hflags.1] at this
              exact Bool.false_ne_true this
            · intro hcontr
              simp at hcontr
          · rw [if_neg ht]
            constructor
            · intro hcontr
              exact ih.1 ⟨hcontr.1, hcontr.2⟩
            · intro _
              exact hflags

end SnowballStrategy

/-- Claim C6: in every update tick the ground test runs before the target
test; a triggering ground test sets hitGround, leaves hitTarget false and
clears active (also when the target test would trigger in the same tick),
the target test fires only when the ground test did not, and no reachable
state has both terminal flags set. -/
theorem c6_collision_order_ground_precedence :
    (∀ (s : SnowballState) (dt : ℝ), SnowballStrategy.Reachable s → s.active = true →
        SnowballStrategy.checkGroundCollision (SnowballStrategy.updatePhysics s dt) →
        (SnowballStrategy.update s dt).hitGround = true ∧
          (SnowballStrategy.update s dt).hitTarget = false ∧
          (SnowballStrategy.update s dt).active = false) ∧
    (∀ (s : SnowballState) (dt : ℝ), SnowballStrategy.Reachable s → s.active = true →
        ¬ SnowballStrategy.checkGroundCollision (SnowballStrategy.updatePhysics s dt) →
        SnowballStrategy.checkTargetCollision (SnowballStrategy.updatePhysics s dt) →
        (SnowballStrategy.update s dt).hitTarget = true ∧
          (SnowballStrategy.update s dt).hitGround = false ∧
          (SnowballStrategy.update s dt).active = false) ∧
    (∀ s : SnowballState, SnowballStrategy.Reachable s →
        ¬(s.hitGround = true ∧ s.hitTarget = true)) := by
  refine ⟨?_, ?_, ?_⟩
  · intro s dt hreach hactive hground
    have hflags := (SnowballStrategy.reachable_flagsInv hreach).2 hactive
    unfold SnowballStrategy.update
    rw [if_neg (by simp [hactive])]
    unfold SnowballStrategy.checkCollisions
    rw [if_pos hground]
    refine ⟨rfl, ?_, rfl⟩
    show (SnowballStrategy.updatePhysics s dt).hitTarget = false
    simp [SnowballStrategy.updatePhysics, hflags.2]
  · intro s dt hreach hactive hnoground htarget
    have hflags := (SnowballStrategy.reachable_flagsInv hreach).2 hactive
    unfold SnowballStrategy.update
    rw [if_neg (by simp [hactive])]
    unfold SnowballStrategy.checkCollisions
    rw [if_neg hnoground, if_pos htarget]
    refine ⟨rfl, ?_, rfl⟩
    show (SnowballStrategy.updatePhysics s dt).hitGround = false
    simp [SnowballStrategy.updatePhysics, hflags.1]
  · intro s hreach
    exact (SnowballStrategy.reachable_flagsInv hreach).1

/-- Witness for claim C6: a freshly thrown projectile at the origin with
radius 1; with ground level 0 the ground test triggers (first conjunct),
with ground level 100 and the target at the origin only the target test
triggers (second conjunct), and the fresh state has neither flag (third
conjunct). -/
theorem c6_collision_order_ground_precedence_witness :
    ((SnowballStrategy.update
        (SnowballStrategy.throwSnowball (SnowballStrategy.mkSnowball 9.8 1 0 ⟨0, 0⟩ 1)) 0).hitGround = true ∧
      (SnowballStrategy.update
        (SnowballStrategy.throwSnowball (SnowballStrategy.mkSnowball 9.8 1 0 ⟨0, 0⟩ 1)) 0).hitTarget = false ∧
      (SnowballStrategy.update
        (SnowballStrategy.throwSnowball (SnowballStrategy.mkSnowball 9.8 1 0 ⟨0, 0⟩ 1)) 0).active = false) ∧
    ((SnowballStrategy.update
        (SnowballStrategy.throwSnowball (SnowballStrategy.mkSnowball 9.8 1 100 ⟨0, 0⟩ 1)) 0).hitTarget = true ∧
      (SnowballStrategy.update
        (SnowballStrategy.throwSnowball (SnowballStrategy.mkSnowball 9.8 1 100 ⟨0, 0⟩ 1)) 0).hitGround = false ∧
      (SnowballStrategy.update
        (SnowballStrategy.throwSnowball (SnowballStrategy.mkSnowball 9.8 1 100 ⟨0, 0⟩ 1)) 0).active = false) ∧
    ¬((SnowballStrategy.mkSnowball 9.8 1 0 ⟨0, 0⟩ 1).hitGround = true ∧
      (SnowballStrategy.mkSnowball 9.8 1 0 ⟨0, 0⟩ 1).hitTarget = true) := by
  have hpos1 : (SnowballStrategy.updatePhysics
      (SnowballStrategy.throwSnowball (SnowballStrategy.mkSnowball 9.8 1 0 ⟨0, 0⟩ 1)) 0).position
      = some ⟨0, 0⟩ := by
    simp [SnowballStrategy.updatePhysics, SnowballStrategy.throwSnowball,
      SnowballStrategy.mkSnowball]
  have hpos2 : (SnowballStrategy.updatePhysics
      (SnowballStrategy.throwSnowball (SnowballStrategy.mkSnowball 9.8 1 100 ⟨0, 0⟩ 1)) 0).position
      = some ⟨0, 0⟩ := by
    simp [SnowballStrategy.updatePhysics, SnowballStrategy.throwSnowball,
      SnowballStrategy.mkSnowball]
  refine ⟨?_, ?_, ?_⟩
  · refine c6_collision_order_ground_precedence.1 _ 0
      (SnowballStrategy.Reachable.throwStep (SnowballStrategy.Reachable.init 9.8 1 0 ⟨0, 0⟩ 1))
      (by simp [SnowballStrategy.throwSnowball, SnowballStrategy.mkSnowball]) ?_
    refine ⟨⟨0, 0⟩, hpos1, ?_⟩
    show (0 : ℝ) ≤ 0 + 1
    norm_num
  · refine c6_collision_order_ground_precedence.2.1 _ 0
      (SnowballStrategy.Reachable.throwStep (SnowballStrategy.Reachable.init 9.8 1 100 ⟨0, 0⟩ 1))
      (by simp [SnowballStrategy.throwSnowball, SnowballStrategy.mkSnowball]) ?_ ?_
    · intro hcontr
      obtain ⟨p, hp, hle⟩ := hcontr
      rw [hpos2] at hp
      cases hp
      revert hle
      show ¬((100 : ℝ) ≤ 0 + 1)
      norm_num
    · refine ⟨⟨0, 0⟩, hpos2, ?_⟩
      show Vector2D.magnitude (Vector2D.sub ⟨0, 0⟩ ⟨0, 0⟩) ≤ 1 + 1
      simp [Vector2D.magnitude, Vector2D.sub]
  · exact c6_collision_order_ground_precedence.2.2 _
      (SnowballStrategy.Reachable.init 9.8 1 0 ⟨0, 0⟩ 1)

/-- Claim C2 fails on the code: with the target 70 units behind the launch
position the square-root argument 2 dx / g is negative, yet
executeNextMove still computes the aim (leaving a non-finite velocity,
modelled as none), activates the projectile and returns true, instead of
rejecting the throw. -/
theorem c2_degenerate_aim_not_rejected :
    (SnowballStrategy.executeNextMove
        (SnowballStrategy.mkSnowball 9.8 10 400 ⟨30, 300⟩ 20) ⟨100, 400⟩).1.active = true ∧
      (SnowballStrategy.executeNextMove
        (SnowballStrategy.mkSnowball 9.8 10 400 ⟨30, 300⟩ 20) ⟨100, 400⟩).1.velocity = none ∧
      (SnowballStrategy.executeNextMove
        (SnowballStrategy.mkSnowball 9.8 10 400 ⟨30, 300⟩ 20) ⟨100, 400⟩).2 = true ∧
      2 * (((30 : ℝ) - 100) / 9.8) < 0 := by
  have haim : SnowballStrategy.snowballAim ⟨100, 400⟩ ⟨30, 300⟩ 9.8 = (⟨100, 350⟩, none) := by
    unfold SnowballStrategy.snowballAim
    rw [if_neg (by norm_num)]
    norm_num
  have hres : SnowballStrategy.executeNextMove
      (SnowballStrategy.mkSnowball 9.8 10 400 ⟨30, 300⟩ 20) ⟨100, 400⟩
      = (⟨true, false, false, some ⟨100, 350⟩, none, 9.8, 10, 400, ⟨30, 300⟩, 20⟩, true) := by
    unfold SnowballStrategy.executeNextMove
    rw [if_pos (by simp [SnowballStrategy.mkSnowball])]
    rw [if_pos (by simp [SnowballStrategy.mkSnowball])]
    show (SnowballStrategy.throwSnowball _, true) = _
    rw [show (SnowballStrategy.mkSnowball 9.8 10 400 ⟨30, 300⟩ 20).targetCenter = ⟨30, 300⟩ from rfl,
      show (SnowballStrategy.mkSnowball 9.8 10 400 ⟨30, 300⟩ 20).gravity = (9.8 : ℝ) from rfl,
      haim]
    unfold SnowballStrategy.throwSnowball
    rw [if_neg (by simp [SnowballStrategy.mkSnowball])]
    rfl
  rw [hres]
  refine ⟨rfl, rfl, rfl, by norm_num⟩

/-! ### Claim C5: the grab threshold -/

/-- The number of leaf (childless) segments touching the target circle,
worded from the spec: a leaf touches when its end point lies inside the
circle or its segment-to-center distance is at most the radius. -/
def touchingLeafCount (b : Body) (object : Circle) : ℕ :=
  (b.segments.filter
    (fun s => decide (Body.isEndPoint b s.id ∧
      (Circle.containsPt object (Segment.endPoint s) ∨
        Segment.distanceToPoint s object.center ≤ object.radius)))).length

/-- The touching-segment list of the code has exactly one entry per
touching leaf. -/
theorem getSegmentsTouchingObject_length (b : Body) (o : Circle) :
    (Body.getSegmentsTouchingObject b o).length = touchingLeafCount b o := by
  unfold Body.getSegmentsTouchingObject touchingLeafCount
  generalize b.segments = l
  induction l with
  | nil => rfl
  | cons a l ih =>
      by_cases h : Body.isEndPoint b a.id ∧
        (Circle.containsPt o (Segment.endPoint a) ∨
          Segment.distanceToPoint a o.center ≤ o.radius)
      · simp [List.filterMap_cons, List.filter_cons, if_pos h, h, ih]
      · simp [List.filterMap_cons, List.filter_cons, if_neg h, h, ih]

/-- Claim C5: canReachObject holds exactly when at least minTouchingPoints
leaf segments touch the circle - in particular it is false below the
threshold and true at exactly the threshold. -/
theorem c5_canReachObject_iff_touching_leaves (b : Body) (object : Circle)
    (minTouchingPoints : ℕ) :
    Body.canReachObject b object minTouchingPoints ↔
      minTouchingPoints ≤ touchingLeafCount b object := by
  unfold Body.canReachObject
  rw [getSegmentsTouchingObject_length]

/-! ### Claim C7: queue discipline of the walker -/

/-- Claim C7: on an empty queue executeNextMove returns false and leaves
the walker state and the body untouched; on a nonempty queue it removes
exactly the front move, whether or not that move succeeds. -/
theorem c7_executeNextMove_queue_discipline (w : WalkerState) (b : Body) (target : Circle) :
    (w.plannedMoves = [] → WalkerStrategy.executeNextMove w b target = (w, b, false)) ∧
    (∀ m rest, w.plannedMoves = m :: rest →
      (WalkerStrategy.executeNextMove w b target).1.plannedMoves = rest) := by
  constructor
  · intro h
    unfold WalkerStrategy.executeNextMove
    rw [h]
  · intro m rest h
    unfold WalkerStrategy.executeNextMove
    rw [h]
    rcases m with ⟨mt, mp, ms, mr⟩
    cases mt
    · simp
    · simp
    · by_cases hc : Body.canReachObject b target
        ({ w with plannedMoves := rest } : WalkerState).minObjectContacts
      · simp [hc]
      · simp [hc]

/-- Witness for claim C7: an empty-queue call on a fresh walker is the
identity, and popping a single grab move empties the queue. -/
theorem c7_executeNextMove_queue_discipline_witness :
    (WalkerStrategy.executeNextMove (WalkerStrategy.mkWalker 5 false)
        ⟨[], [], ⟨0, 0⟩, 400⟩ ⟨⟨0, 0⟩, 1⟩
      = (WalkerStrategy.mkWalker 5 false, ⟨[], [], ⟨0, 0⟩, 400⟩, false)) ∧
    (WalkerStrategy.executeNextMove
        ⟨5, [⟨MoveType.grab, ⟨0, 0⟩, "", 0⟩], false, 0, 2, 3, false⟩
        ⟨[], [], ⟨0, 0⟩, 400⟩ ⟨⟨0, 0⟩, 1⟩).1.plannedMoves = [] :=
  ⟨(c7_executeNextMove_queue_discipline (WalkerStrategy.mkWalker 5 false)
      ⟨[], [], ⟨0, 0⟩, 400⟩ ⟨⟨0, 0⟩, 1⟩).1 rfl,
    (c7_executeNextMove_queue_discipline
      ⟨5, [⟨MoveType.grab, ⟨0, 0⟩, "", 0⟩], false, 0, 2, 3, false⟩
      ⟨[], [], ⟨0, 0⟩, 400⟩ ⟨⟨0, 0⟩, 1⟩).2 ⟨MoveType.grab, ⟨0, 0⟩, "", 0⟩ [] rfl⟩

/-! ### Claim C3: the walk-step count -/

/-- Walking part of claim C3: from base (100,400) toward (500,350) at walk
speed 5 the code plans exactly 70 walk moves (the Euclidean distance is
the square root of 162500, between 400 and 405, so the truncated quotient
of the walking distance by the speed is 70). -/
theorem addWalkingSequence_c3_types :
    (WalkerStrategy.addWalkingSequence ⟨100, 400⟩ ⟨500, 350⟩ 5).map Move.type
      = List.replicate 70 MoveType.walk := by
  have hsub : Vector2D.sub ⟨500, 350⟩ ⟨100, 400⟩ = (⟨400, -50⟩ : Vector2D) := by
    unfold Vector2D.sub
    norm_num
  have hmag : Vector2D.magnitude (Vector2D.sub ⟨500, 350⟩ ⟨100, 400⟩)
      = Real.sqrt 162500 := by
    rw [hsub]
    unfold Vector2D.magnitude
    norm_num
  have hlb : (400 : ℝ) ≤ Real.sqrt 162500 := by
    rw [Real.le_sqrt' (by norm_num)]
    norm_num
  have hub : Real.sqrt 162500 < 405 := by
    rw [Real.sqrt_lt' (by norm_num)]
    norm_num
  have hfloor : truncToInt ((Real.sqrt 162500 - 50) / 5) = 70 := by
    unfold truncToInt
    rw [if_pos (div_nonneg (by linarith) (by norm_num))]
    rw [Int.floor_eq_iff]
    constructor
    · show ((70 : ℤ) : ℝ) ≤ (Real.sqrt 162500 - 50) / 5
      rw [le_div_iff (by norm_num)]
      push_cast
      linarith
    · show (Real.sqrt 162500 - 50) / 5 < (70 : ℤ) + 1
      rw [div_lt_iff (by norm_num)]
      push_cast
      linarith
  unfold WalkerStrategy.addWalkingSequence
  rw [hmag]
  rw [if_neg (by push_neg; linarith)]
  rw [hfloor]
  rw [List.map_map]
  have hconst : (Move.type ∘ fun i : ℕ =>
      (⟨MoveType.walk, Vector2D.add ⟨100, 400⟩
        (Vector2D.smul (Vector2D.smul
          (Vector2D.normalizeVec (Vector2D.sub ⟨500, 350⟩ ⟨100, 400⟩)) 5) ((i : ℝ) + 1)),
        "", 0⟩ : Move)) = fun _ => MoveType.walk := rfl
  rw [hconst]
  rw [List.map_const']
  simp

/-- Reaching part of claim C3: the reach fold appends one reach move per
existing designated segment, so its contribution to the move-type list is
a block of at most names.length reach entries. -/
theorem reachFold_types (b : Body) (t : Vector2D) (names : List String) :
    ∀ acc : List Move,
      ∃ k, k ≤ names.length ∧
        ((names.foldl (WalkerStrategy.reachStep b t) acc).map Move.type
          = acc.map Move.type ++ List.replicate k MoveType.reach) := by
  induction names with
  | nil =>
      intro acc
      exact ⟨0, le_refl 0, by simp⟩
  | cons n ns ih =>
      intro acc
      cases hget : Body.getSegment b n with
      | none =>
          have hstep : WalkerStrategy.reachStep b t acc n = acc := by
            unfold WalkerStrategy.reachStep
            rw [hget]
          rw [List.foldl_cons, hstep]
          obtain ⟨k, hk, heq⟩ := ih acc
          exact ⟨k, le_trans hk (Nat.le_succ _), heq⟩
      | some seg =>
          have hstep : WalkerStrategy.reachStep b t acc n
              = acc ++ [⟨MoveType.reach, t, n, WalkerStrategy.normalizeRotation
                  (WalkerStrategy.atan2 (Vector2D.sub t seg.start).y
                    (Vector2D.sub t seg.start).x - seg.angle)⟩] := by
            unfold WalkerStrategy.reachStep
            rw [hget]
          rw [List.foldl_cons, hstep]
          obtain ⟨k, hk, heq⟩ := ih (acc ++ [⟨MoveType.reach, t, n,
            WalkerStrategy.normalizeRotation
              (WalkerStrategy.atan2 (Vector2D.sub t seg.start).y
                (Vector2D.sub t seg.start).x - seg.angle)⟩])
          refine ⟨k + 1, Nat.succ_le_succ hk, ?_⟩
          rw [heq, List.map_append]
          simp only [List.map_cons, List.map_nil, List.append_assoc, List.singleton_append]
          rw [List.replicate_succ]

/-- Claim C3: planning against the object at (500,350) from base (100,400)
with walk speed 5 yields exactly 70 walk moves, followed by the reach
moves (one per designated segment present, so at most four) and one final
grab move. -/
theorem c3_planSequence_walk_count (w : WalkerState) (b : Body)
    (hbase : b.basePosition = ⟨100, 400⟩) (hspeed : w.walkSpeed = 5) :
    ∃ k ≤ 4,
      ((WalkerStrategy.planSequence w b ⟨500, 350⟩).plannedMoves.map Move.type)
        = List.replicate 70 MoveType.walk ++
            (List.replicate k MoveType.reach ++ [MoveType.grab]) := by
  unfold WalkerStrategy.planSequence WalkerStrategy.addReachingSequence
  rw [hbase, hspeed]
  obtain ⟨k, hk, heq⟩ :=
    reachFold_types b ⟨500, 350⟩ WalkerStrategy.reachingSegmentNames []
  refine ⟨k, ?_, ?_⟩
  · simpa [WalkerStrategy.reachingSegmentNames] using hk
  · simp only [List.map_append]
    rw [addWalkingSequence_c3_types, heq]
    simp

/-- Witness for claim C3 at a concrete body (no segments, base (100,400))
and a fresh walker with speed 5. -/
theorem c3_planSequence_walk_count_witness :
    ∃ k ≤ 4,
      ((WalkerStrategy.planSequence (WalkerStrategy.mkWalker 5 false)
          ⟨[], [], ⟨100, 400⟩, 400⟩ ⟨500, 350⟩).plannedMoves.map Move.type)
        = List.replicate 70 MoveType.walk ++
            (List.replicate k MoveType.reach ++ [MoveType.grab]) :=
  c3_planSequence_walk_count (WalkerStrategy.mkWalker 5 false)
    ⟨[], [], ⟨100, 400⟩, 400⟩ rfl rfl

/-! ### Claim C8: idempotence of updateSegments

The plan: updateSegments only overwrites start points, every value it
writes is read from data it does not change (identifiers, lengths,
angles, the connection table, the base position) or from a start it has
itself written earlier in the same pass, and the write pattern is
deterministic in that unchanged data.  Two runs are therefore simulated
in lockstep; every position of the segment list is, at each instant,
either equal across the two runs or still untouched in both. -/

/-- Two segments that can differ only in their start point. -/
def SameShape (s₁ s₂ : Segment) : Prop :=
  s₁.id = s₂.id ∧ s₁.length = s₂.length ∧ s₁.angle = s₂.angle ∧
    s₁.minAngle = s₂.minAngle ∧ s₁.maxAngle = s₂.maxAngle

theorem sameShape_refl (s : Segment) : SameShape s s :=
  ⟨rfl, rfl, rfl, rfl, rfl⟩

theorem sameShape_trans {a b c : Segment} (h₁ : SameShape a b) (h₂ : SameShape b c) :
    SameShape a c :=
  ⟨h₁.1.trans h₂.1, h₁.2.1.trans h₂.2.1, h₁.2.2.1.trans h₂.2.2.1,
    h₁.2.2.2.1.trans h₂.2.2.2.1, h₁.2.2.2.2.trans h₂.2.2.2.2⟩

/-- Two same-shape segments with the same start are equal. -/
theorem sameShape_ext {s₁ s₂ : Segment} (h : SameShape s₁ s₂) (hs : s₁.start = s₂.start) :
    s₁ = s₂ := by
  cases s₁
  cases s₂
  obtain ⟨h1, h2, h3, h4, h5⟩ := h
  simp only at h1 h2 h3 h4 h5 hs
  simp [h1, h2, h3, h4, h5, hs]

/-- Pointwise SameShape between two segment lists. -/
def Shape (l₁ l₂ : List Segment) : Prop :=
  List.Forall₂ SameShape l₁ l₂

theorem shape_refl (l : List Segment) : Shape l l := by
  induction l with
  | nil => exact List.Forall₂.nil
  | cons s t ih => exact List.Forall₂.cons (sameShape_refl s) ih

theorem shape_trans {l₁ l₂ l₃ : List Segment} (h₁ : Shape l₁ l₂) (h₂ : Shape l₂ l₃) :
    Shape l₁ l₃ := by
  induction h₁ generalizing l₃ with
  | nil =>
      cases h₂
      exact List.Forall₂.nil
  | cons hs ht ih =>
      cases h₂ with
      | cons hs' ht' => exact List.Forall₂.cons (sameShape_trans hs hs') (ih ht')

/-- Overwriting a start point preserves the shape of the list. -/
theorem shape_setStartList (l : List Segment) (n : String) (v : Vector2D) :
    Shape l (setStartList l n v) := by
  induction l with
  | nil => exact List.Forall₂.nil
  | cons s t ih =>
      unfold setStartList
      by_cases h : s.id = n
      · rw [if_pos h]
        exact List.Forall₂.cons ⟨rfl, rfl, rfl, rfl, rfl⟩ (shape_refl t)
      · rw [if_neg h]
        exact List.Forall₂.cons (sameShape_refl s) ih

/-- One body derives from another by start-point overwrites only. -/
def StartsOnly (b b' : Body) : Prop :=
  b'.connections = b.connections ∧ b'.basePosition = b.basePosition ∧
    b'.groundLevel = b.groundLevel ∧ Shape b.segments b'.segments

theorem startsOnly_refl (b : Body) : StartsOnly b b :=
  ⟨rfl, rfl, rfl, shape_refl b.segments⟩

theorem startsOnly_trans {a b c : Body} (h₁ : StartsOnly a b) (h₂ : StartsOnly b c) :
    StartsOnly a c :=
  ⟨h₂.1.trans h₁.1, h₂.2.1.trans h₁.2.1, h₂.2.2.1.trans h₁.2.2.1,
    shape_trans h₁.2.2.2 h₂.2.2.2⟩

theorem startsOnly_setSegStart (b : Body) (n : String) (v : Vector2D) :
    StartsOnly b (Body.setSegStart b n v) :=
  ⟨rfl, rfl, rfl, shape_setStartList b.segments n v⟩

/-- The propagation pass only overwrites start points. -/
theorem startsOnly_ucs :
    ∀ fuel : ℕ,
      (∀ (b : Body) (p : String), StartsOnly b (updateChildSegments fuel b p)) ∧
      (∀ (b : Body) (p : String) (cs : List String),
        StartsOnly b (updateChildrenFrom fuel b p cs)) := by
  intro fuel
  induction fuel with
  | zero =>
      have hq : ∀ (b : Body) (p : String), StartsOnly b (updateChildSegments 0 b p) := by
        intro b p
        rw [updateChildSegments]
        exact startsOnly_refl b
      refine ⟨hq, ?_⟩
      intro b p cs
      induction cs generalizing b with
      | nil =>
          rw [updateChildrenFrom]
          exact startsOnly_refl b
      | cons c rest ih =>
          rw [updateChildrenFrom]
          cases hc : Body.getSegment b c with
          | none =>
              cases hp : Body.getSegment b p with
              | none => exact ih b
              | some parentSeg => exact ih b
          | some childSeg =>
              cases hp : Body.getSegment b p with
              | none => exact ih b
              | some parentSeg =>
                  exact startsOnly_trans
                    (startsOnly_trans (startsOnly_setSegStart b c (Segment.endPoint parentSeg))
                      (hq _ c)) (ih _)
  | succ f ih =>
      obtain ⟨ihQ, ihR⟩ := ih
      have hq : ∀ (b : Body) (p : String), StartsOnly b (updateChildSegments (f + 1) b p) := by
        intro b p
        rw [updateChildSegments]
        cases hconn : lookupConnections b.connections p with
        | none => exact startsOnly_refl b
        | some children =>
            cases hget : Body.getSegment b p with
            | none => exact startsOnly_refl b
            | some seg => exact ihR b p children
      refine ⟨hq, ?_⟩
      intro b p cs
      induction cs generalizing b with
      | nil =>
          rw [updateChildrenFrom]
          exact startsOnly_refl b
      | cons c rest ih2 =>
          rw [updateChildrenFrom]
          cases hc : Body.getSegment b c with
          | none =>
              cases hp : Body.getSegment b p with
              | none => exact ih2 b
              | some parentSeg => exact ih2 b
          | some childSeg =>
              cases hp : Body.getSegment b p with
              | none => exact ih2 b
              | some parentSeg =>
                  exact startsOnly_trans
                    (startsOnly_trans (startsOnly_setSegStart b c (Segment.endPoint parentSeg))
                      (hq _ c)) (ih2 _)

/-- The full re-layout only overwrites start points. -/
theorem startsOnly_updateSegments (b : Body) : StartsOnly b (Body.updateSegments b) := by
  unfold Body.updateSegments
  have hfold : ∀ (L : List String) (acc : Body), StartsOnly b acc →
      StartsOnly b (L.foldl Body.layoutRootStep acc) := by
    intro L
    induction L with
    | nil =>
        intro acc h
        exact h
    | cons r L ih =>
        intro acc h
        rw [List.foldl_cons]
        apply ih
        refine startsOnly_trans h ?_
        unfold Body.layoutRootStep
        exact startsOnly_trans
          (startsOnly_setSegStart acc r acc.basePosition)
          ((startsOnly_ucs _).1 _ r)
  exact hfold _ b (startsOnly_refl b)

/-- Small-step equation for setStartList. -/
theorem setStartList_cons (s : Segment) (t : List Segment) (n : String) (v : Vector2D) :
    setStartList (s :: t) n v =
      if s.id = n then { s with start := v } :: t else s :: setStartList t n v :=
  rfl

/-- Small-step equation for findSegment. -/
theorem findSegment_cons (s : Segment) (t : List Segment) (n : String) :
    findSegment (s :: t) n = if s.id = n then some s else findSegment t n := by
  unfold findSegment
  by_cases h : s.id = n
  · rw [List.find?_cons_of_pos _ (by simpa using h), if_pos h]
  · rw [List.find?_cons_of_neg _ (by simpa using h), if_neg h]

/-- Lockstep simulation of two segment lists: relative to the two original
lists, every position is either already equal across the runs or still
untouched in both, and the two entries always share their shape. -/
inductive ParSeg : List Segment → List Segment → List Segment → List Segment → Prop
  | nil : ParSeg [] [] [] []
  | cons {a₁ a₂ b₁ b₂ : Segment} {o₁ o₂ l₁ l₂ : List Segment} :
      SameShape b₁ b₂ → (b₁ = b₂ ∨ (b₁ = a₁ ∧ b₂ = a₂)) →
      ParSeg o₁ o₂ l₁ l₂ → ParSeg (a₁ :: o₁) (a₂ :: o₂) (b₁ :: l₁) (b₂ :: l₂)

/-- Two shape-equal lists start the simulation untouched. -/
theorem parSeg_init {l₁ l₂ : List Segment} (h : Shape l₁ l₂) : ParSeg l₁ l₂ l₁ l₂ := by
  induction h with
  | nil => exact ParSeg.nil
  | cons hs ht ih => exact ParSeg.cons hs (Or.inr ⟨rfl, rfl⟩) ih

/-- When the first original list is the second final list, the two finals
coincide (the reading of idempotence). -/
theorem parSeg_extract {o₁ o₂ l₁ l₂ : List Segment}
    (h : ParSeg o₁ o₂ l₁ l₂) (ho : o₁ = l₂) : l₁ = l₂ := by
  induction h with
  | nil => rfl
  | cons hs hd ht ih =>
      injection ho with h1 h2
      rcases hd with hd | ⟨e1, e2⟩
      · rw [hd, ih h2]
      · rw [e1, h1, ih h2]

/-- An equal-value write at the same name preserves the simulation
relation. -/
theorem parSeg_setStart {o₁ o₂ l₁ l₂ : List Segment}
    (h : ParSeg o₁ o₂ l₁ l₂) (n : String) (v : Vector2D) :
    ParSeg o₁ o₂ (setStartList l₁ n v) (setStartList l₂ n v) := by
  induction h with
  | nil => exact ParSeg.nil
  | cons hs hd ht ih =>
      rename_i a₁ a₂ b₁ b₂ r₁ r₂ t₁ t₂
      rw [setStartList_cons, setStartList_cons]
      by_cases hid : b₁.id = n
      · rw [if_pos hid, if_pos ((hs.1.symm.trans hid))]
        refine ParSeg.cons ⟨hs.1, hs.2.1, hs.2.2.1, hs.2.2.2.1, hs.2.2.2.2⟩ ?_ ht
        left
        exact sameShape_ext ⟨hs.1, hs.2.1, hs.2.2.1, hs.2.2.2.1, hs.2.2.2.2⟩ rfl
      · rw [if_neg hid, if_neg (fun hcon => hid (hs.1.trans hcon))]
        exact ParSeg.cons hs hd ih

/-- Lookup presence is determined by the shape, hence equal across the
runs. -/
theorem findSegment_isSome_congr {o₁ o₂ l₁ l₂ : List Segment}
    (h : ParSeg o₁ o₂ l₁ l₂) (m : String) :
    (findSegment l₁ m).isSome = (findSegment l₂ m).isSome := by
  induction h with
  | nil => rfl
  | cons hs hd ht ih =>
      rename_i a₁ a₂ b₁ b₂ r₁ r₂ t₁ t₂
      rw [findSegment_cons, findSegment_cons]
      by_cases hm : b₁.id = m
      · rw [if_pos hm, if_pos (hs.1.symm.trans hm)]
        rfl
      · rw [if_neg hm, if_neg (fun hcon => hm (hs.1.trans hcon)), ih]

/-- An equal-value write preserves lookup agreement at every name. -/
theorem findSegment_set_congr {o₁ o₂ l₁ l₂ : List Segment}
    (h : ParSeg o₁ o₂ l₁ l₂) (n : String) (v : Vector2D) (m : String)
    (hm : findSegment l₁ m = findSegment l₂ m) :
    findSegment (setStartList l₁ n v) m = findSegment (setStartList l₂ n v) m := by
  induction h with
  | nil => exact hm
  | cons hs hd ht ih =>
      rename_i a₁ a₂ b₁ b₂ r₁ r₂ t₁ t₂
      rw [findSegment_cons, findSegment_cons] at hm
      rw [setStartList_cons, setStartList_cons]
      by_cases hbn : b₁.id = n
      · rw [if_pos hbn, if_pos (hs.1.symm.trans hbn)]
        rw [findSegment_cons, findSegment_cons]
        by_cases hm1 : b₁.id = m
        · rw [if_pos hm1, if_pos (hs.1.symm.trans hm1)]
          rw [@sameShape_ext { b₁ with start := v } { b₂ with start := v }
            ⟨hs.1, hs.2.1, hs.2.2.1, hs.2.2.2.1, hs.2.2.2.2⟩ rfl]
        · rw [if_neg hm1, if_neg (fun hcon => hm1 (hs.1.trans hcon))]
          rw [if_neg hm1, if_neg (fun hcon => hm1 (hs.1.trans hcon))] at hm
          exact hm
      · rw [if_neg hbn, if_neg (fun hcon => hbn (hs.1.trans hcon))]
        rw [findSegment_cons, findSegment_cons]
        by_cases hm1 : b₁.id = m
        · rw [if_pos hm1, if_pos (hs.1.symm.trans hm1)]
          rw [if_pos hm1, if_pos (hs.1.symm.trans hm1)] at hm
          exact hm
        · rw [if_neg hm1, if_neg (fun hcon => hm1 (hs.1.trans hcon))]
          rw [if_neg hm1, if_neg (fun hcon => hm1 (hs.1.trans hcon))] at hm
          exact ih hm

/-- After an equal-value write at a name, the two runs agree on the lookup
of that very name. -/
theorem findSegment_set_self {o₁ o₂ l₁ l₂ : List Segment}
    (h : ParSeg o₁ o₂ l₁ l₂) (n : String) (v : Vector2D) :
    findSegment (setStartList l₁ n v) n = findSegment (setStartList l₂ n v) n := by
  induction h with
  | nil => rfl
  | cons hs hd ht ih =>
      rename_i a₁ a₂ b₁ b₂ r₁ r₂ t₁ t₂
      rw [setStartList_cons, setStartList_cons]
      by_cases hbn : b₁.id = n
      · rw [if_pos hbn, if_pos (hs.1.symm.trans hbn)]
        rw [findSegment_cons, findSegment_cons]
        rw [if_pos hbn, if_pos (hs.1.symm.trans hbn)]
        rw [@sameShape_ext { b₁ with start := v } { b₂ with start := v }
          ⟨hs.1, hs.2.1, hs.2.2.1, hs.2.2.2.1, hs.2.2.2.2⟩ rfl]
      · rw [if_neg hbn, if_neg (fun hcon => hbn (hs.1.trans hcon))]
        rw [findSegment_cons, findSegment_cons]
        rw [if_neg hbn, if_neg (fun hcon => hbn (hs.1.trans hcon))]
        exact ih

theorem sameShape_symm {s₁ s₂ : Segment} (h : SameShape s₁ s₂) : SameShape s₂ s₁ :=
  ⟨h.1.symm, h.2.1.symm, h.2.2.1.symm, h.2.2.2.1.symm, h.2.2.2.2.symm⟩

theorem shape_symm {l₁ l₂ : List Segment} (h : Shape l₁ l₂) : Shape l₂ l₁ := by
  induction h with
  | nil => exact List.Forall₂.nil
  | cons hs ht ih => exact List.Forall₂.cons (sameShape_symm hs) ih

theorem parSeg_map_id {o₁ o₂ l₁ l₂ : List Segment} (h : ParSeg o₁ o₂ l₁ l₂) :
    l₁.map (fun s => s.id) = l₂.map (fun s => s.id) := by
  induction h with
  | nil => rfl
  | cons hs hd ht ih =>
      simp only [List.map_cons, ih]
      rw [hs.1]

theorem parSeg_length {o₁ o₂ l₁ l₂ : List Segment} (h : ParSeg o₁ o₂ l₁ l₂) :
    l₁.length = l₂.length := by
  have := parSeg_map_id h
  have h1 := congrArg List.length this
  simpa using h1

theorem setStartList_length (l : List Segment) (n : String) (v : Vector2D) :
    (setStartList l n v).length = l.length := by
  induction l with
  | nil => rfl
  | cons s t ih =>
      rw [setStartList_cons]
      by_cases h : s.id = n
      · rw [if_pos h]
        rfl
      · rw [if_neg h]
        simp [ih]

/-- Lockstep simulation at the Body level: equal connection tables, equal
base positions and ParSeg-related segment lists. -/
def ParBody (o₁ o₂ : List Segment) (c₁ c₂ : Body) : Prop :=
  c₁.connections = c₂.connections ∧ c₁.basePosition = c₂.basePosition ∧
    ParSeg o₁ o₂ c₁.segments c₂.segments

theorem parBody_setSegStart {o₁ o₂ : List Segment} {c₁ c₂ : Body}
    (h : ParBody o₁ o₂ c₁ c₂) (n : String) (v : Vector2D) :
    ParBody o₁ o₂ (Body.setSegStart c₁ n v) (Body.setSegStart c₂ n v) :=
  ⟨h.1, h.2.1, parSeg_setStart h.2.2 n v⟩

/-- The loop of the propagation pass preserves the lockstep simulation,
given that it does so for the recursive propagation at the same fuel. -/
theorem par_ucf_of_ucs (o₁ o₂ : List Segment) (fuel : ℕ)
    (hq : ∀ (c₁ c₂ : Body) (p : String), ParBody o₁ o₂ c₁ c₂ →
      Body.getSegment c₁ p = Body.getSegment c₂ p →
      ParBody o₁ o₂ (updateChildSegments fuel c₁ p) (updateChildSegments fuel c₂ p) ∧
        ∀ m, Body.getSegment c₁ m = Body.getSegment c₂ m →
          Body.getSegment (updateChildSegments fuel c₁ p) m =
            Body.getSegment (updateChildSegments fuel c₂ p) m) :
    ∀ (cs : List String) (c₁ c₂ : Body) (p : String), ParBody o₁ o₂ c₁ c₂ →
      Body.getSegment c₁ p = Body.getSegment c₂ p →
      ParBody o₁ o₂ (updateChildrenFrom fuel c₁ p cs) (updateChildrenFrom fuel c₂ p cs) ∧
        ∀ m, Body.getSegment c₁ m = Body.getSegment c₂ m →
          Body.getSegment (updateChildrenFrom fuel c₁ p cs) m =
            Body.getSegment (updateChildrenFrom fuel c₂ p cs) m := by
  intro cs
  induction cs with
  | nil =>
      intro c₁ c₂ p hpar hp
      rw [updateChildrenFrom, updateChildrenFrom]
      exact ⟨hpar, fun m hm => hm⟩
  | cons c rest ih =>
      intro c₁ c₂ p hpar hp
      simp only [updateChildrenFrom]
      cases h1 : Body.getSegment c₁ c with
      | none =>
          have h2 : Body.getSegment c₂ c = none := by
            have hs : (Body.getSegment c₁ c).isSome = (Body.getSegment c₂ c).isSome :=
              findSegment_isSome_congr hpar.2.2 c
            rw [h1] at hs
            cases hh : Body.getSegment c₂ c with
            | none => rfl
            | some s =>
                rw [hh] at hs
                simp at hs
          rw [h2]
          exact ih c₁ c₂ p hpar hp
      | some s1 =>
          have h2 : ∃ s2, Body.getSegment c₂ c = some s2 := by
            have hs : (Body.getSegment c₁ c).isSome = (Body.getSegment c₂ c).isSome :=
              findSegment_isSome_congr hpar.2.2 c
            rw [h1] at hs
            cases hh : Body.getSegment c₂ c with
            | none =>
                rw [hh] at hs
                simp at hs
            | some s => exact ⟨s, rfl⟩
          obtain ⟨s2, h2⟩ := h2
          rw [h2]
          cases hp1 : Body.getSegment c₁ p with
          | none =>
              have hp2 : Body.getSegment c₂ p = none := hp.symm.trans hp1
              rw [hp2]
              exact ih c₁ c₂ p hpar hp
          | some ps =>
              have hp2 : Body.getSegment c₂ p = some ps := hp.symm.trans hp1
              rw [hp2]
              have hparSet : ParBody o₁ o₂
                  (Body.setSegStart c₁ c (Segment.endPoint ps))
                  (Body.setSegStart c₂ c (Segment.endPoint ps)) :=
                parBody_setSegStart hpar c (Segment.endPoint ps)
              have hagreeC :
                  Body.getSegment (Body.setSegStart c₁ c (Segment.endPoint ps)) c =
                    Body.getSegment (Body.setSegStart c₂ c (Segment.endPoint ps)) c :=
                findSegment_set_self hpar.2.2 c (Segment.endPoint ps)
              obtain ⟨hpar', htrans'⟩ :=
                hq (Body.setSegStart c₁ c (Segment.endPoint ps))
                  (Body.setSegStart c₂ c (Segment.endPoint ps)) c hparSet hagreeC
              have hpAfter :
                  Body.getSegment (updateChildSegments fuel
                      (Body.setSegStart c₁ c (Segment.endPoint ps)) c) p =
                    Body.getSegment (updateChildSegments fuel
                      (Body.setSegStart c₂ c (Segment.endPoint ps)) c) p :=
                htrans' p (findSegment_set_congr hpar.2.2 c (Segment.endPoint ps) p hp)
              obtain ⟨hparFin, htransFin⟩ :=
                ih (updateChildSegments fuel (Body.setSegStart c₁ c (Segment.endPoint ps)) c)
                  (updateChildSegments fuel (Body.setSegStart c₂ c (Segment.endPoint ps)) c)
                  p hpar' hpAfter
              refine ⟨hparFin, ?_⟩
              intro m hm
              exact htransFin m
                (htrans' m (findSegment_set_congr hpar.2.2 c (Segment.endPoint ps) m hm))

/-- The propagation pass preserves the lockstep simulation and transports
every lookup agreement, at every fuel. -/
theorem par_ucs (o₁ o₂ : List Segment) :
    ∀ fuel : ℕ,
      ∀ (c₁ c₂ : Body) (p : String), ParBody o₁ o₂ c₁ c₂ →
        Body.getSegment c₁ p = Body.getSegment c₂ p →
        ParBody o₁ o₂ (updateChildSegments fuel c₁ p) (updateChildSegments fuel c₂ p) ∧
          ∀ m, Body.getSegment c₁ m = Body.getSegment c₂ m →
            Body.getSegment (updateChildSegments fuel c₁ p) m =
              Body.getSegment (updateChildSegments fuel c₂ p) m := by
  intro fuel
  induction fuel with
  | zero =>
      intro c₁ c₂ p hpar hp
      rw [updateChildSegments, updateChildSegments]
      exact ⟨hpar, fun m hm => hm⟩
  | succ f ihf =>
      intro c₁ c₂ p hpar hp
      simp only [updateChildSegments]
      rw [hpar.1]
      cases hconn : lookupConnections c₂.connections p with
      | none => exact ⟨hpar, fun m hm => hm⟩
      | some children =>
          cases hp1 : Body.getSegment c₁ p with
          | none =>
              have hp2 : Body.getSegment c₂ p = none := hp.symm.trans hp1
              rw [hp2]
              exact ⟨hpar, fun m hm => hm⟩
          | some ps =>
              have hp2 : Body.getSegment c₂ p = some ps := hp.symm.trans hp1
              rw [hp2]
              exact par_ucf_of_ucs o₁ o₂ f ihf children c₁ c₂ p hpar hp

/-- The full re-layout preserves the lockstep simulation. -/
theorem par_updateSegments {o₁ o₂ : List Segment} {c₁ c₂ : Body}
    (h : ParBody o₁ o₂ c₁ c₂) :
    ParBody o₁ o₂ (Body.updateSegments c₁) (Body.updateSegments c₂) := by
  have hstep : ∀ (d₁ d₂ : Body) (r : String), ParBody o₁ o₂ d₁ d₂ →
      ParBody o₁ o₂ (Body.layoutRootStep d₁ r) (Body.layoutRootStep d₂ r) := by
    intro d₁ d₂ r hd
    simp only [Body.layoutRootStep]
    rw [hd.2.1]
    have hfuel : (Body.setSegStart d₁ r d₂.basePosition).segments.length
        = (Body.setSegStart d₂ r d₂.basePosition).segments.length := by
      show (setStartList d₁.segments r d₂.basePosition).length
        = (setStartList d₂.segments r d₂.basePosition).length
      rw [setStartList_length, setStartList_length]
      exact parSeg_length hd.2.2
    rw [hfuel]
    exact (par_ucs o₁ o₂ (Body.setSegStart d₂ r d₂.basePosition).segments.length
      (Body.setSegStart d₁ r d₂.basePosition)
      (Body.setSegStart d₂ r d₂.basePosition) r
      (parBody_setSegStart hd r d₂.basePosition)
      (findSegment_set_self hd.2.2 r d₂.basePosition)).1
  have hfold : ∀ (L : List String) (d₁ d₂ : Body), ParBody o₁ o₂ d₁ d₂ →
      ParBody o₁ o₂ (L.foldl Body.layoutRootStep d₁) (L.foldl Body.layoutRootStep d₂) := by
    intro L
    induction L with
    | nil =>
        intro d₁ d₂ hd
        exact hd
    | cons r L ih =>
        intro d₁ d₂ hd
        rw [List.foldl_cons, List.foldl_cons]
        exact ih _ _ (hstep _ _ r hd)
  unfold Body.updateSegments
  rw [parSeg_map_id h.2.2, h.1]
  exact hfold _ _ _ h

/-- Equality of bodies from equality of all four fields. -/
theorem bodyFieldsExt (x y : Body) (h1 : x.segments = y.segments)
    (h2 : x.connections = y.connections) (h3 : x.basePosition = y.basePosition)
    (h4 : x.groundLevel = y.groundLevel) : x = y := by
  cases x
  cases y
  simp only at h1 h2 h3 h4
  rw [h1, h2, h3, h4]

/-- Claim C8: updateSegments is idempotent - running the full re-layout a
second time on an unchanged Body changes nothing, so both runs produce
identical segment endpoints. -/
theorem c8_updateSegments_idempotent (b : Body) :
    Body.updateSegments (Body.updateSegments b) = Body.updateSegments b ∧
      Body.getSegmentLines (Body.updateSegments (Body.updateSegments b)) =
        Body.getSegmentLines (Body.updateSegments b) := by
  have hso := startsOnly_updateSegments b
  have hso2 := startsOnly_updateSegments (Body.updateSegments b)
  have hinit : ParBody (Body.updateSegments b).segments b.segments
      (Body.updateSegments b) b :=
    ⟨hso.1, hso.2.1, parSeg_init (shape_symm hso.2.2.2)⟩
  have hpar := par_updateSegments hinit
  have hsegs : (Body.updateSegments (Body.updateSegments b)).segments
      = (Body.updateSegments b).segments :=
    parSeg_extract hpar.2.2 rfl
  have hmain : Body.updateSegments (Body.updateSegments b) = Body.updateSegments b :=
    bodyFieldsExt _ _ hsegs hso2.1 hso2.2.1 hso2.2.2.1
  exact ⟨hmain, by rw [hmain]⟩

/-! ### Claim C10: total division of Vector2D -/

/-- Claim C10: dividing a Vector2D by the zero scalar is total - operator/
returns the vector unchanged and operator/= leaves both components
unchanged - so no infinity or NaN is produced. -/
theorem c10_vector_division_by_zero_total (v : Vector2D) :
    Vector2D.vdiv v 0 = v ∧ Vector2D.vdivAssign v 0 = v := by
  constructor
  · unfold Vector2D.vdiv
    rw [if_pos rfl]
  · unfold Vector2D.vdivAssign
    rw [if_neg (by simp)]

end BodyLine
